import Mathlib

/-!
Verification of the MNA document pipeline core
(`backend/app/core/ai_orchestrator.py` and `backend/app/core/classifier.py`).

The Python code is shallowly embedded: Python/JSON values become the
inductive `JVal`, Python dicts become association lists (insertion order
preserved, first-match lookup, assignment updates in place or appends a new
key at the end, exactly like a Python dict), and Python exceptions become
`Except String`.  Machine-level caveats of the embedding are noted at each
definition.
-/

set_option maxHeartbeats 1000000
set_option linter.unnecessarySeqFocus false
set_option linter.unreachableTactic false
set_option linter.unusedTactic false

namespace MNA

/-- A Python value as produced by `json.loads` (plus the schema values the
orchestrator builds itself): a string, an int, a bool, `None`, a list or a
dict.  Dicts are association lists in insertion order. -/
inductive JVal where
  | str (s : String)
  | num (n : Int)
  | bool (b : Bool)
  | null
  | arr (xs : List JVal)
  | obj (kvs : List (String × JVal))
deriving Repr

/-- A dict of string keys, as in the parsed JSON object. -/
abbrev Obj := List (String × JVal)

/-- The orchestrator's record shape: dict of section name to dict of field
name to value (`self.mna_schema` and everything derived from it). -/
abbrev Record := List (String × Obj)

/-- First-match association-list lookup: Python `d[k]` / `k in d` on a dict
with unique keys (Python dicts cannot hold duplicate keys; on lists with
duplicates this takes the first, which is the only deterministic choice). -/
def alookup {α : Type} (l : List (String × α)) (k : String) : Option α :=
  match l with
  | [] => none
  | p :: rest => if p.1 == k then some p.2 else alookup rest k

/-- Python dict assignment `d[k] = v`: update the existing key in place
(keeping its position) or append the new key at the end. -/
def setKey (l : Obj) (k : String) (v : JVal) : Obj :=
  if l.any (fun p => p.1 == k) then
    l.map (fun p => if p.1 == k then (k, v) else p)
  else
    l ++ [(k, v)]

/-- `data[section][field] = v` on a record. -/
def setField (r : Record) (s f : String) (v : JVal) : Record :=
  r.map (fun p => if p.1 == s then (p.1, setKey p.2 f v) else p)

/-- `data[section][field]` read on a record, `none` if section or field is
absent. -/
def recLookup (r : Record) (s f : String) : Option JVal :=
  (alookup r s).bind (fun fields => alookup fields f)

/-- The section/field-name skeleton of a record. -/
def recShape (r : Record) : List (String × List String) :=
  r.map (fun p => (p.1, p.2.map Prod.fst))

/-- Python `str.strip()` whitespace set (ASCII part; the claims only involve
ASCII text). -/
def pyIsSpace (c : Char) : Bool :=
  c == ' ' || c == '\t' || c == '\n' || c == '\r' || c == '\x0b' || c == '\x0c'

/-- Python `str.strip()`: drop leading and trailing whitespace. -/
def pyStrip (s : String) : String :=
  String.mk (((s.toList.dropWhile pyIsSpace).reverse.dropWhile pyIsSpace).reverse)

/-- Python `str.lower()` restricted to ASCII (the Python original also maps
non-ASCII letters; every pattern and sentinel in this code base is ASCII). -/
def pyToLower (c : Char) : Char :=
  if 'A' ≤ c && c ≤ 'Z' then Char.ofNat (c.toNat + 32) else c

/-- ASCII `str.lower()` on a string. -/
def pyLower (s : String) : String :=
  String.mk (s.toList.map pyToLower)

/-- Python truthiness `if v:` of a JSON value. -/
def pyTruthy (v : JVal) : Bool :=
  match v with
  | .str s => !(s == "")
  | .num n => !(n == 0)
  | .bool b => b
  | .null => false
  | .arr xs => !xs.isEmpty
  | .obj kvs => !kvs.isEmpty

/-- Python `v == lit` against a string literal: values of a different type
compare unequal. -/
def pyEqStr (v : JVal) (lit : String) : Bool :=
  match v with
  | .str s => s == lit
  | _ => false

/-- The orchestrator's sentinel list `['', 'n/a', 'null', 'none']`
(ai_orchestrator.py line 167). -/
def sentinels : List String := ["", "n/a", "null", "none"]

/-- The string half of the merge-step cleaning (ai_orchestrator.py lines
165-168): strip whitespace, collapse sentinel values to the empty string. -/
def cleanStr (s : String) : String :=
  let t := pyStrip s
  if sentinels.contains (pyLower t) then "" else t

/-- Per-value cleaning of the merge step (ai_orchestrator.py lines 164-168):
strings are stripped and sentinel-collapsed, every other value is copied
unchanged. -/
def cleanValue (v : JVal) : JVal :=
  match v with
  | .str s => .str (cleanStr s)
  | v => v

/-- `self.mna_schema` (ai_orchestrator.py lines 22-65).  `t0` is the
`datetime.now().isoformat()` string taken at construction time, which the
code stores as the default of `metadata.date_processed`; every other default
is the empty string. -/
def mnaSchema (t0 : String) : Record :=
  [ ("deal_summary",
      [ ("deal_name", .str ""), ("deal_type", .str ""),
        ("target_company", .str ""), ("buyer", .str ""),
        ("seller", .str ""), ("country", .str ""),
        ("announcement_date", .str ""), ("signing_date", .str ""),
        ("closing_date", .str ""), ("deal_size_usd", .str ""),
        ("currency", .str ""), ("status", .str "") ]),
    ("financials",
      [ ("revenue", .str ""), ("ebitda", .str ""),
        ("enterprise_value", .str ""), ("ev_ebitda_multiple", .str ""),
        ("debt_assumed", .str ""), ("other_key_metrics", .str "") ]),
    ("advisors",
      [ ("buy_side_advisor", .str ""), ("sell_side_advisor", .str ""),
        ("legal_counsel_buyer", .str ""), ("legal_counsel_seller", .str ""),
        ("other_advisors", .str "") ]),
    ("power_plant_details",
      [ ("project_name", .str ""), ("location", .str ""),
        ("capacity_mw", .str ""), ("technology_type", .str ""),
        ("cod", .str "") ]),
    ("metadata",
      [ ("deal_id", .str ""), ("source_file_name", .str ""),
        ("date_processed", .str t0), ("extraction_confidence", .str "") ]) ]

/-- All 32 (section, field) pairs of the schema. -/
def schemaPairs : List (String × String) :=
  [ ("deal_summary", "deal_name"), ("deal_summary", "deal_type"),
    ("deal_summary", "target_company"), ("deal_summary", "buyer"),
    ("deal_summary", "seller"), ("deal_summary", "country"),
    ("deal_summary", "announcement_date"), ("deal_summary", "signing_date"),
    ("deal_summary", "closing_date"), ("deal_summary", "deal_size_usd"),
    ("deal_summary", "currency"), ("deal_summary", "status"),
    ("financials", "revenue"), ("financials", "ebitda"),
    ("financials", "enterprise_value"), ("financials", "ev_ebitda_multiple"),
    ("financials", "debt_assumed"), ("financials", "other_key_metrics"),
    ("advisors", "buy_side_advisor"), ("advisors", "sell_side_advisor"),
    ("advisors", "legal_counsel_buyer"), ("advisors", "legal_counsel_seller"),
    ("advisors", "other_advisors"),
    ("power_plant_details", "project_name"), ("power_plant_details", "location"),
    ("power_plant_details", "capacity_mw"), ("power_plant_details", "technology_type"),
    ("power_plant_details", "cod"),
    ("metadata", "deal_id"), ("metadata", "source_file_name"),
    ("metadata", "date_processed"), ("metadata", "extraction_confidence") ]

/-- What the merge loop reads from the parsed object at `(s, f)`
(ai_orchestrator.py lines 160-163): the value if section `s` is present, is
a dict, and holds field `f`; `none` otherwise. -/
def parsedField (kvs : Obj) (s f : String) : Option JVal :=
  match alookup kvs s with
  | some (.obj o) => alookup o f
  | _ => none

/-- One section of the merge loop (ai_orchestrator.py lines 160-169): if the
parsed object holds this section as a dict, copy each schema field present
in it (cleaned), keeping the schema default otherwise; else keep the whole
section's defaults. -/
def mergeSec (fields : Obj) (dsec : Option JVal) : Obj :=
  match dsec with
  | some (.obj o) =>
      fields.map (fun p =>
        match alookup o p.1 with
        | some v => (p.1, cleanValue v)
        | none => p)
  | _ => fields

/-- The merge loop of `_validate_and_clean_data` applied to a parsed dict
(ai_orchestrator.py lines 156-169), starting from the schema. -/
def mergeRec (schema : Record) (kvs : Obj) : Record :=
  schema.map (fun p => (p.1, mergeSec p.2 (alookup kvs p.1)))

/-- Does `pat` occur at the very start of `hay`? -/
def matchAt (pat hay : List Char) : Bool :=
  hay.take pat.length == pat

/-- Does `pat` occur at some position of `hay` (the empty pattern occurs in
everything, matching Python)? -/
def hasOcc (pat : List Char) : List Char → Bool
  | [] => matchAt pat []
  | c :: t => matchAt pat (c :: t) || hasOcc pat t

/-- Python substring test `needle in hay` on strings. -/
def strContains (hay needle : String) : Bool :=
  hasOcc needle.toList hay.toList

/-- The merge half of `_validate_and_clean_data` on an arbitrary parsed
value (ai_orchestrator.py lines 156-169).  On a dict the loop runs; on a
string or list, `section in data` is a substring / membership test and a hit
then makes `data[section]` raise `TypeError`; on any other value the
membership test itself raises `TypeError`.  The raise surfaces as
`Except.error` with no field yet written (the first hit happens before any
copy). -/
def merge_clean (schema : Record) (data : JVal) : Except String Record :=
  match data with
  | .obj kvs => .ok (mergeRec schema kvs)
  | .str s =>
      if schema.any (fun p => strContains s p.1) then
        .error "TypeError: string indices must be integers"
      else .ok schema
  | .arr xs =>
      if schema.any (fun p => xs.any (fun x => pyEqStr x p.1)) then
        .error "TypeError: list indices must be integers"
      else .ok schema
  | _ => .error "TypeError: argument of type is not iterable"

/-- The four date fields checked by `_validate_dates`
(ai_orchestrator.py lines 181-186). -/
def dateFields : List (String × String) :=
  [ ("deal_summary", "announcement_date"), ("deal_summary", "signing_date"),
    ("deal_summary", "closing_date"), ("power_plant_details", "cod") ]

/-- One field of `_validate_dates` (ai_orchestrator.py lines 188-202): a
string value is left untouched (the regex branch does nothing either way); a
truthy non-string makes `re.match` raise `TypeError`, caught by the bare
`except`, which blanks the field.  Falsy values and values equal to `"N/A"`
are skipped. -/
def validateDatesStep (r : Record) (sf : String × String) : Record :=
  match recLookup r sf.1 sf.2 with
  | none => r
  | some v =>
      if pyTruthy v && !(pyEqStr v "N/A") then
        match v with
        | .str _ => r
        | _ => setField r sf.1 sf.2 (.str "")
      else r

/-- `_validate_dates` (ai_orchestrator.py lines 179-204). -/
def validate_dates (r : Record) : Record :=
  dateFields.foldl validateDatesStep r

/-- The five monetary fields of `_validate_monetary_values`
(ai_orchestrator.py lines 208-214). -/
def monetaryFields : List (String × String) :=
  [ ("deal_summary", "deal_size_usd"), ("financials", "revenue"),
    ("financials", "ebitda"), ("financials", "enterprise_value"),
    ("financials", "debt_assumed") ]

/-- `re.sub(r'[^\d.]', '', s)`: keep only digits and decimal points
(`\d` read as ASCII digits; all inputs of interest are ASCII). -/
def moneyFilter (s : String) : String :=
  String.mk (s.toList.filter (fun c => c.isDigit || c == '.'))

mutual

/-- Python `repr` of a JSON value, used by `str()` on non-string values
(only the digits and dots of the result ever matter downstream). -/
def pyRepr : JVal → String
  | .str s => "'" ++ s ++ "'"
  | .num n => toString n
  | .bool b => if b then "True" else "False"
  | .null => "None"
  | .arr xs => "[" ++ pyReprList xs ++ "]"
  | .obj kvs => "\x7b" ++ pyReprObj kvs ++ "\x7d"

/-- Comma-joined `repr` of list elements. -/
def pyReprList : List JVal → String
  | [] => ""
  | [x] => pyRepr x
  | x :: y :: xs => pyRepr x ++ ", " ++ pyReprList (y :: xs)

/-- Comma-joined `repr` of dict entries. -/
def pyReprObj : List (String × JVal) → String
  | [] => ""
  | [p] => "'" ++ p.1 ++ "': " ++ pyRepr p.2
  | p :: q :: xs => "'" ++ p.1 ++ "': " ++ pyRepr p.2 ++ ", " ++ pyReprObj (q :: xs)

end

/-- Python `str(v)`. -/
def pyStr (v : JVal) : String :=
  match v with
  | .str s => s
  | v => pyRepr v

/-- One field of `_validate_monetary_values` (ai_orchestrator.py lines
216-222): a truthy value other than `"N/A"` is replaced by
`re.sub(r'[^\d.]', '', str(value))`. -/
def validateMonetaryStep (r : Record) (sf : String × String) : Record :=
  match recLookup r sf.1 sf.2 with
  | none => r
  | some v =>
      if pyTruthy v && !(pyEqStr v "N/A") then
        setField r sf.1 sf.2 (.str (moneyFilter (pyStr v)))
      else r

/-- `_validate_monetary_values` (ai_orchestrator.py lines 206-224). -/
def validate_monetary (r : Record) : Record :=
  monetaryFields.foldl validateMonetaryStep r

/-- `_validate_and_clean_data` (ai_orchestrator.py lines 154-177): merge the
parsed value into a copy of the schema, then run date and monetary
validation.  A `TypeError` from a non-dict parsed value propagates (it is
caught only at `process_document`'s top level). -/
def validate_and_clean (schema : Record) (data : JVal) : Except String Record :=
  (merge_clean schema data).map (fun m => validate_monetary (validate_dates m))

/-- A wall-clock instant as Python's `datetime.now()` delivers it (the
fields `datetime` itself guarantees: month 1-12, day 1-31, hour < 24,
minute < 60, second < 60, year 1-9999). -/
structure PyDateTime where
  year : Nat
  month : Nat
  day : Nat
  hour : Nat
  minute : Nat
  second : Nat
deriving Repr, DecidableEq

/-- Zero-padded two-digit strftime field (`%m`, `%d`, `%H`, `%M`, `%S`);
faithful for the argument range `datetime` guarantees (n < 100). -/
def pad2 (n : Nat) : String :=
  String.mk [Nat.digitChar (n / 10 % 10), Nat.digitChar (n % 10)]

/-- Zero-padded four-digit strftime `%Y`; faithful for years 1000-9999
(which `datetime.now()` always is in practice). -/
def pad4 (n : Nat) : String :=
  String.mk [Nat.digitChar (n / 1000 % 10), Nat.digitChar (n / 100 % 10),
             Nat.digitChar (n / 10 % 10), Nat.digitChar (n % 10)]

/-- `datetime.now().strftime('%Y%m%d_%H%M%S')`. -/
def strftimeYmdHMS (t : PyDateTime) : String :=
  pad4 t.year ++ pad2 t.month ++ pad2 t.day ++ "_" ++
    pad2 t.hour ++ pad2 t.minute ++ pad2 t.second

/-- The timestamp fallback deal id (ai_orchestrator.py lines 240 and 243). -/
def fallbackDealId (now : PyDateTime) : String :=
  "DEAL_" ++ strftimeYmdHMS now

/-- `re.sub(r'[^\w]', '', s)`: keep word characters only (`\w` read as
ASCII letters, digits and underscore). -/
def wordFilter (s : String) : List Char :=
  s.toList.filter (fun c => c.isAlphanum || c == '_')

/-- `re.sub(r'[^\d]', '', s)`: keep digits only. -/
def digitFilter (s : String) : List Char :=
  s.toList.filter Char.isDigit

/-- `_generate_deal_id` (ai_orchestrator.py lines 226-243): with a truthy
string target, first 10 word characters of the target plus first 8 digits
of the announcement date; a truthy non-string target or date makes `re.sub`
raise, caught by the inner `except`, and any falsy target takes the same
timestamp fallback. -/
def generate_deal_id (data : Record) (now : PyDateTime) : String :=
  let target := ((alookup data "deal_summary").bind
    (fun sec => alookup sec "target_company")).getD (.str "")
  let date := ((alookup data "deal_summary").bind
    (fun sec => alookup sec "announcement_date")).getD (.str "")
  if pyTruthy target then
    match target, date with
    | .str t, .str d =>
        "DEAL_" ++ String.mk ((wordFilter t).take 10) ++ "_" ++
          String.mk ((digitFilter d).take 8)
    | _, _ => fallbackDealId now
  else fallbackDealId now

/-- View of a record as the parsed-JSON value it round-trips to (used by the
parse-failure path, which feeds `self.mna_schema.copy()` back into the merge
loop). -/
def recToJVal (r : Record) : JVal :=
  .obj (r.map (fun p => (p.1, .obj p.2)))

/-- `_parse_ai_response` (ai_orchestrator.py lines 137-152).  The regex
extraction and `json.loads` are abstracted into a single opaque decode
outcome: `some v` when either decode attempt yields the value `v`, `none`
when both fail with `JSONDecodeError`, in which case the method returns
`self.mna_schema.copy()`.  Because `dict.copy()` is shallow, the copy shares
its section dicts with the live schema; content-wise it equals the schema. -/
def parse_ai_response (schema : Record) (decoded : Option JVal) : JVal :=
  match decoded with
  | some v => v
  | none => recToJVal schema

/-- `error_data = self.mna_schema.copy()` followed by
`error_data["metadata"]["extraction_error"] = str(e)` (ai_orchestrator.py
lines 108-109).  The shallow copy shares the `metadata` dict with the
schema, so the write lands in the schema too; content-wise copy and schema
coincide. -/
def errorRecord (schema : Record) (e : String) : Record :=
  setField schema "metadata" "extraction_error" (.str e)

/-- `process_document` (ai_orchestrator.py lines 67-110), in state-passing
form.  The first component of the result is the returned record, the second
is the orchestrator's `self.mna_schema` after the call: because every
`dict.copy()` in this method is shallow, all section dicts of the returned
record are the very section dicts of the schema, so the post-call schema
content equals the returned record's content.

Inputs: `apiOutcome` is the boundary collaborator outcome — `.error e` when
prompt building or the OpenAI call raises `e`, `.ok dec` when a response
text arrives and decodes to `dec` (`none` = not parseable as JSON).
`tNow` is `datetime.now().isoformat()` at line 99, `dtNow` the clock at the
deal-id fallback. -/
def process_document (schema : Record) (apiOutcome : Except String (Option JVal))
    (tNow : String) (dtNow : PyDateTime) : Record × Record :=
  match apiOutcome with
  | .error e =>
      let r := errorRecord schema e
      (r, r)
  | .ok dec =>
      match validate_and_clean schema (parse_ai_response schema dec) with
      | .error e =>
          let r := errorRecord schema e
          (r, r)
      | .ok cleaned =>
          let c1 := setField cleaned "metadata" "date_processed" (.str tNow)
          let c2 := setField c1 "metadata" "deal_id"
                      (.str (generate_deal_id c1 dtNow))
          (c2, c2)

/-!  The classifier (`backend/app/core/classifier.py`). -/

/-- Occurrence count at every position, overlapping occurrences included:
the number of positions of `hay` (its end included) where `pat` starts. -/
def countOverlap (pat : List Char) : List Char → Nat
  | [] => if matchAt pat [] then 1 else 0
  | c :: t => (if matchAt pat (c :: t) then 1 else 0) + countOverlap pat t

/-- Fuel-indexed core of Python `str.count` (structural recursion on the
fuel, so that the kernel can evaluate it): at each position, a match of a
nonempty pattern is counted and skipped over whole, otherwise the scan
advances one character.  The fuel only needs to exceed the text length. -/
def pyCountF (pat : List Char) : Nat → List Char → Nat
  | 0, _ => 0
  | fuel + 1, hay =>
      if matchAt pat hay then
        if pat.isEmpty then hay.length + 1
        else 1 + pyCountF pat fuel (hay.drop pat.length)
      else
        match hay with
        | [] => 0
        | _ :: t => pyCountF pat fuel t

/-- Python `str.count`: greedy left-to-right count of non-overlapping
occurrences (`''.count` semantics for the empty pattern included, though no
pattern here is empty). -/
def pyCount (pat : List Char) (hay : List Char) : Nat :=
  pyCountF pat (hay.length + 1) hay

/-- Count occurrences of a pattern string in a text string, the way
`text.count(pat)` does. -/
def pyCountStr (hay pat : String) : Nat :=
  pyCount pat.toList hay.toList

/-- The classifier's keyword/phrase table (classifier.py lines 15-70), in
dict order. -/
def patterns : List (String × List String × List String) :=
  [ ("press_release",
      ([ "press release", "announces", "acquisition", "merger",
         "transaction", "closing", "signing", "agreement",
         "forward-looking statements", "safe harbor" ],
       [ "for immediate release", "announced today", "pleased to announce",
         "has agreed to acquire", "has completed the acquisition" ])),
    ("quarterly_report",
      ([ "quarterly report", "q1", "q2", "q3", "q4",
         "quarterly results", "earnings", "fiscal quarter",
         "three months ended", "quarterly financial" ],
       [ "quarterly report", "financial results", "quarterly earnings",
         "fiscal quarter ended" ])),
    ("annual_report",
      ([ "annual report", "form 10-k", "fiscal year",
         "annual results", "yearly results", "12 months ended",
         "annual financial", "year ended" ],
       [ "annual report", "fiscal year ended", "year ended december",
         "twelve months ended" ])),
    ("investor_deck",
      ([ "investor presentation", "company overview",
         "investment highlights", "business strategy",
         "market opportunity", "financial projections",
         "slide", "presentation" ],
       [ "investor presentation", "company overview",
         "investment thesis", "business highlights" ])) ]

/-- The per-label score of `classify_document` (classifier.py lines 83-96):
keyword occurrences weigh 1, phrase occurrences weigh 2, counted by
`str.count` on the lowercased text (the patterns are already lowercase, and
the code lowercases them again before counting). -/
def scoreOf (text : String) (kws phrs : List String) : Nat :=
  (kws.map (fun k => pyCountStr (pyLower text) (pyLower k) * 1)).sum +
    (phrs.map (fun p => pyCountStr (pyLower text) (pyLower p) * 2)).sum

/-- The scores dict of `classify_document` / `get_classification_confidence`
(classifier.py lines 81-96 and 119-134), in dict order. -/
def scoresList (text : String) : List (String × Nat) :=
  patterns.map (fun p => (p.1, scoreOf text p.2.1 p.2.2))

/-- Python `max(scores.values())` over the concrete scores (the dict is
never empty). -/
def maxScore (text : String) : Nat :=
  ((scoresList text).map Prod.snd).foldl Nat.max 0

/-- Python `max(scores, key=scores.get)`: the first key of maximal value in
iteration order (later keys replace the best only on strictly greater
value). -/
def firstArgmax (xs : List (String × Nat)) : String :=
  match xs with
  | [] => ""
  | x :: rest => (rest.foldl (fun b y => if y.2 > b.2 then y else b) x).1

/-- `classify_document` (classifier.py lines 72-111).  The body raises no
exception on any input, so the `except` fallback is dead code. -/
def classify_document (text : String) : String :=
  if maxScore text > 0 then firstArgmax (scoresList text) else "other"

/-- `get_classification_confidence` (classifier.py lines 113-146), with
float division embedded as exact rational division.  When the total score
is zero the un-normalized dict — four labels all mapping to 0 — is
returned. -/
def get_classification_confidence (text : String) : List (String × ℚ) :=
  let scores : List (String × ℚ) :=
    (scoresList text).map (fun p => (p.1, (p.2 : ℚ)))
  let total : ℚ := (scores.map Prod.snd).sum
  if total > 0 then
    scores.map (fun p => (p.1, p.2 / total * 100))
  else scores

/-- The fixed keyword list of `is_financial_document`
(classifier.py lines 182-186). -/
def financialKeywords : List String :=
  [ "revenue", "ebitda", "earnings", "profit", "loss",
    "financial results", "income statement", "balance sheet",
    "cash flow", "financial performance", "million", "billion" ]

/-- `is_financial_document` (classifier.py lines 178-191): at least three of
the fixed keywords occur in the lowercased text. -/
def is_financial_document (text : String) : Bool :=
  (financialKeywords.map
      (fun k => if strContains (pyLower text) k then 1 else 0)).sum ≥ 3

/-- The fixed keyword list of `is_mna_document`
(classifier.py lines 197-201). -/
def mnaKeywords : List String :=
  [ "acquisition", "merger", "buyout", "transaction", "deal",
    "acquire", "purchase", "buy", "sell", "divestiture",
    "target", "buyer", "seller", "closing", "completion" ]

/-- `is_mna_document` (classifier.py lines 193-206): at least two of the
fixed keywords occur in the lowercased text. -/
def is_mna_document (text : String) : Bool :=
  (mnaKeywords.map
      (fun k => if strContains (pyLower text) k then 1 else 0)).sum ≥ 2

/-- First entry (key and value) whose key matches, if any. -/
def afind {α : Type} (l : List (String × α)) (k : String) : Option (String × α) :=
  match l with
  | [] => none
  | p :: rest => if p.1 == k then some p else afind rest k

/-- The schema's section/field skeleton, value-free. -/
def schemaShapeC : List (String × List String) :=
  [ ("deal_summary",
      [ "deal_name", "deal_type", "target_company", "buyer", "seller",
        "country", "announcement_date", "signing_date", "closing_date",
        "deal_size_usd", "currency", "status" ]),
    ("financials",
      [ "revenue", "ebitda", "enterprise_value", "ev_ebitda_multiple",
        "debt_assumed", "other_key_metrics" ]),
    ("advisors",
      [ "buy_side_advisor", "sell_side_advisor", "legal_counsel_buyer",
        "legal_counsel_seller", "other_advisors" ]),
    ("power_plant_details",
      [ "project_name", "location", "capacity_mw", "technology_type", "cod" ]),
    ("metadata",
      [ "deal_id", "source_file_name", "date_processed",
        "extraction_confidence" ]) ]

/-- Is this value a Python string? -/
def JVal.isStr : JVal → Bool
  | .str _ => true
  | _ => false

/-- The spec's per-label score: occurrences counted at every position
(overlapping ones included), keywords weighing 1 and phrases weighing 2,
case-insensitively. -/
def specScore (text : String) (kws phrs : List String) : Nat :=
  (kws.map (fun k =>
    countOverlap (pyLower k).toList (pyLower text).toList)).sum +
  2 * (phrs.map (fun p =>
    countOverlap (pyLower p).toList (pyLower text).toList)).sum

/-- The spec's scores, one per label in table order. -/
def specScores (text : String) : List (String × Nat) :=
  patterns.map (fun p => (p.1, specScore text p.2.1 p.2.2))

/-- A pattern is border-free: no nonempty proper prefix of it is also a
suffix.  Occurrences of such a pattern can never overlap, which is what
makes non-overlapping and overlapping occurrence counts agree. -/
def borderlessB (pat : List Char) : Bool :=
  (List.range pat.length).all
    (fun k => k == 0 || !(pat.take k == pat.drop (pat.length - k)))

/-- Propositional form of `borderlessB`. -/
def Borderless (pat : List Char) : Prop :=
  ∀ k, 0 < k → k < pat.length → pat.take k ≠ pat.drop (pat.length - k)

/-- Does a string look like `DEAL_` followed by eight digits, an underscore
and six digits — the timestamp-fallback deal-id pattern? -/
def isTimestampDealId (s : String) : Bool :=
  let cs := s.toList
  cs.length == 20 &&
    decide (cs.take 5 = ('D' :: 'E' :: 'A' :: 'L' :: '_' :: [])) &&
    ((cs.drop 5).take 8).all Char.isDigit &&
    decide (cs.get? 13 = some '_') &&
    ((cs.drop 14).all Char.isDigit)

/-- Total raw classifier score of a text (the normalization denominator). -/
def totalRaw (text : String) : Nat :=
  ((scoresList text).map Prod.snd).sum

/-!  Generic association-list lemmas. -/

theorem alookup_eq_afind {α : Type} (l : List (String × α)) (k : String) :
    alookup l k = (afind l k).map Prod.snd := by
  induction l with
  | nil => rfl
  | cons p rest ih =>
      simp only [alookup, afind]
      split <;> simp [ih]

theorem afind_key {α : Type} {l : List (String × α)} {k : String} {p : String × α}
    (h : afind l k = some p) : p.1 = k := by
  induction l with
  | nil => simp [afind] at h
  | cons q rest ih =>
      simp only [afind] at h
      by_cases hq : q.1 == k
      · rw [if_pos hq] at h
        cases h
        exact beq_iff_eq.mp hq
      · rw [if_neg hq] at h
        exact ih h

theorem alookup_mapval {α β : Type} (l : List (String × α)) (F : String × α → β)
    (k : String) :
    alookup (l.map (fun p => (p.1, F p))) k = (afind l k).map F := by
  induction l with
  | nil => rfl
  | cons p rest ih =>
      simp only [List.map_cons, alookup, afind]
      split <;> simp [ih]

theorem any_key_of_alookup_some {α : Type} {l : List (String × α)} {k : String}
    {v : α} (h : alookup l k = some v) : l.any (fun p => p.1 == k) = true := by
  induction l with
  | nil => simp [alookup] at h
  | cons q rest ih =>
      simp only [alookup] at h
      by_cases hq : q.1 == k
      · simp [hq]
      · rw [if_neg hq] at h
        simp [ih h]

theorem alookup_overwrite_ne (l : Obj) (f f2 : String) (v : JVal) (h : f2 ≠ f) :
    alookup (l.map (fun p => if p.1 == f then (f, v) else p)) f2 = alookup l f2 := by
  induction l with
  | nil => rfl
  | cons q rest ih =>
      simp only [List.map_cons, alookup]
      by_cases hq : (q.1 == f) = true
      · have hq2 : ¬(((f, v) : String × JVal).1 == f2) = true := by
          simp only [beq_iff_eq]
          exact fun hc => h hc.symm
        have hq3 : ¬(q.1 == f2) = true := by
          simp only [beq_iff_eq]
          intro hc
          exact h (hc.symm.trans (beq_iff_eq.mp hq))
        rw [if_pos hq, if_neg hq2, if_neg hq3]
        exact ih
      · rw [if_neg hq]
        by_cases hq2 : (q.1 == f2) = true
        · simp [alookup, beq_iff_eq.mp hq2]
        · simp only [alookup, if_neg hq2]
          exact ih

theorem alookup_append_single_ne (l : Obj) (f f2 : String) (v : JVal) (h : f2 ≠ f) :
    alookup (l ++ [(f, v)]) f2 = alookup l f2 := by
  induction l with
  | nil =>
      simp only [List.nil_append, alookup]
      rw [if_neg]
      simp only [beq_iff_eq]
      exact fun hc => h hc.symm
  | cons q rest ih =>
      simp only [List.cons_append, alookup]
      split
      · rfl
      · exact ih

theorem alookup_setKey_ne (l : Obj) (f f2 : String) (v : JVal) (h : f2 ≠ f) :
    alookup (setKey l f v) f2 = alookup l f2 := by
  rw [setKey]
  split
  · exact alookup_overwrite_ne l f f2 v h
  · exact alookup_append_single_ne l f f2 v h

theorem alookup_overwrite_self (l : Obj) (f : String) (v w : JVal)
    (h : alookup l f = some w) :
    alookup (l.map (fun p => if p.1 == f then (f, v) else p)) f = some v := by
  induction l with
  | nil => simp [alookup] at h
  | cons q rest ih =>
      simp only [alookup] at h
      simp only [List.map_cons, alookup]
      by_cases hq : (q.1 == f) = true
      · simp [alookup, beq_iff_eq.mp hq]
      · rw [if_neg hq] at h
        simp only [if_neg hq]
        exact ih h

theorem alookup_setKey_self (l : Obj) (f : String) (v w : JVal)
    (h : alookup l f = some w) : alookup (setKey l f v) f = some v := by
  rw [setKey, if_pos (any_key_of_alookup_some h)]
  exact alookup_overwrite_self l f v w h

theorem alookup_setField (r : Record) (s f : String) (v : JVal) (s2 : String) :
    alookup (setField r s f v) s2 =
      (afind r s2).map (fun p => if p.1 == s then setKey p.2 f v else p.2) := by
  induction r with
  | nil => rfl
  | cons q rest ih =>
      simp only [setField, List.map_cons, afind]
      have hkey : (if (q.1 == s) = true then (q.1, setKey q.2 f v) else q).1 = q.1 := by
        split <;> rfl
      by_cases hq : (q.1 == s2) = true
      · rw [alookup, hkey, if_pos hq, if_pos hq]
        simp only [Option.map_some']
        by_cases hs : (q.1 == s) = true
        · rw [if_pos hs, if_pos hs]
        · rw [if_neg hs, if_neg hs]
      · rw [alookup, hkey, if_neg hq, if_neg hq]
        exact ih

theorem recLookup_setField_ne (r : Record) (s f : String) (v : JVal)
    (s2 f2 : String) (h : s2 ≠ s ∨ f2 ≠ f) :
    recLookup (setField r s f v) s2 f2 = recLookup r s2 f2 := by
  simp only [recLookup, alookup_setField, alookup_eq_afind r s2]
  cases hq : afind r s2 with
  | none => rfl
  | some p =>
      simp only [Option.map_some', Option.some_bind']
      by_cases hp : (p.1 == s) = true
      · rw [if_pos hp]
        rcases h with h | h
        · exact absurd ((afind_key hq).symm.trans (beq_iff_eq.mp hp)) h
        · exact alookup_setKey_ne p.2 f f2 v h
      · rw [if_neg hp]

theorem recLookup_setField_self (r : Record) (s f : String) (v w : JVal)
    (h : recLookup r s f = some w) : recLookup (setField r s f v) s f = some v := by
  rw [recLookup, alookup_eq_afind r s] at h
  cases hq : afind r s with
  | none => rw [hq] at h; simp at h
  | some p =>
      rw [hq] at h
      simp only [Option.map_some', Option.some_bind'] at h
      simp only [recLookup, alookup_setField, hq, Option.map_some', Option.some_bind']
      rw [if_pos (by simp [beq_iff_eq, afind_key hq])]
      exact alookup_setKey_self p.2 f v w h

/-!  Characterization of the merge loop. -/

theorem schema_afind (t0 s f : String) (h : (s, f) ∈ schemaPairs) :
    ∃ fields, afind (mnaSchema t0) s = some (s, fields) ∧
      ∃ dv, afind fields f = some (f, dv) := by
  fin_cases h <;> exact ⟨_, rfl, _, rfl⟩

theorem alookup_mergeSec (fields : Obj) (d : Option JVal) (f : String)
    (pr : String × JVal) (h : afind fields f = some pr) :
    alookup (mergeSec fields d) f =
      some (match d with
            | some (.obj o) =>
                (match alookup o f with
                 | some v => cleanValue v
                 | none => pr.2)
            | _ => pr.2) := by
  have hkey := afind_key h
  match d with
  | none =>
      simp only [mergeSec, alookup_eq_afind, h, Option.map_some']
  | some (.str _) | some (.num _) | some (.bool _) | some .null | some (.arr _) =>
      simp only [mergeSec, alookup_eq_afind, h, Option.map_some']
  | some (.obj o) =>
      simp only [mergeSec]
      induction fields with
      | nil => simp [afind] at h
      | cons q rest ih =>
          simp only [afind] at h
          by_cases hq : (q.1 == f) = true
          · rw [if_pos hq] at h
            cases h
            have hqf : pr.1 = f := hkey
            cases hlo : alookup o pr.1 with
            | none =>
                simp only [List.map_cons, hlo, alookup]
                rw [hqf] at hlo
                simp [hlo, hqf, if_pos hq]
            | some v =>
                simp only [List.map_cons, hlo, alookup]
                rw [hqf] at hlo
                simp [hlo, hqf]
          · rw [if_neg hq] at h
            have := ih h
            simp only [List.map_cons, alookup]
            cases hlo : alookup o q.1 with
            | none =>
                simp only [hlo, if_neg hq]
                exact this
            | some v =>
                simp only [hlo]
                rw [if_neg hq]
                exact this

theorem recLookup_schema (t0 s f : String) {fields : Obj} {dv : JVal}
    (hsec : afind (mnaSchema t0) s = some (s, fields))
    (hfld : afind fields f = some (f, dv)) :
    recLookup (mnaSchema t0) s f = some dv := by
  simp only [recLookup, alookup_eq_afind, hsec, hfld, Option.map_some',
    Option.some_bind']

/-- The value the merge loop leaves at a schema slot `(s, f)`: the cleaned
parsed value when the parsed object supplies one, the schema default
otherwise. -/
theorem mergeRec_lookup (t0 : String) (kvs : Obj) (s f : String)
    (h : (s, f) ∈ schemaPairs) :
    recLookup (mergeRec (mnaSchema t0) kvs) s f =
      some (match parsedField kvs s f with
            | some v => cleanValue v
            | none => (recLookup (mnaSchema t0) s f).getD JVal.null) := by
  obtain ⟨fields, hsec, dv, hfld⟩ := schema_afind t0 s f h
  have hdef := recLookup_schema t0 s f hsec hfld
  rw [recLookup, mergeRec, alookup_mapval, hsec, Option.map_some',
    Option.some_bind']
  rw [alookup_mergeSec fields (alookup kvs s) f (f, dv) hfld]
  rw [hdef]
  simp only [parsedField, Option.getD_some]
  cases hk : alookup kvs s with
  | none => rfl
  | some v => cases v <;> rfl

/-!  Shape lemmas: the merge and both validators keep exactly the schema's
section/field skeleton. -/

theorem recShape_mnaSchema (t0 : String) :
    recShape (mnaSchema t0) = schemaShapeC := rfl

theorem mergeSec_shape (fields : Obj) (d : Option JVal) :
    (mergeSec fields d).map Prod.fst = fields.map Prod.fst := by
  cases d with
  | none => rfl
  | some v =>
      cases v with
      | obj o =>
          simp only [mergeSec, List.map_map]
          apply List.map_congr_left
          intro p _
          simp only [Function.comp_apply]
          cases alookup o p.1 <;> rfl
      | str s => rfl
      | num n => rfl
      | bool b => rfl
      | null => rfl
      | arr xs => rfl

theorem mergeRec_shape (t0 : String) (kvs : Obj) :
    recShape (mergeRec (mnaSchema t0) kvs) = schemaShapeC := by
  rw [← recShape_mnaSchema t0]
  simp only [recShape, mergeRec, List.map_map]
  apply List.map_congr_left
  intro p _
  simp [mergeSec_shape]

theorem setKey_shape (l : Obj) (f : String) (v : JVal)
    (h : l.any (fun p => p.1 == f) = true) :
    (setKey l f v).map Prod.fst = l.map Prod.fst := by
  rw [setKey, if_pos h]
  simp only [List.map_map]
  apply List.map_congr_left
  intro p _
  simp only [Function.comp_apply]
  by_cases hp : (p.1 == f) = true
  · rw [if_pos hp]
    exact (beq_iff_eq.mp hp).symm
  · rw [if_neg hp]

theorem setField_shape (r : Record) (s f : String) (v : JVal)
    (hs : recShape r = schemaShapeC)
    (hf : ∀ pr ∈ schemaShapeC, pr.1 = s → f ∈ pr.2) :
    recShape (setField r s f v) = schemaShapeC := by
  rw [← hs]
  simp only [recShape, setField, List.map_map]
  apply List.map_congr_left
  intro p hp
  simp only [Function.comp_apply]
  by_cases hps : (p.1 == s) = true
  · have hmem : (p.1, p.2.map Prod.fst) ∈ schemaShapeC := by
      rw [← hs]
      exact List.mem_map.mpr ⟨p, hp, rfl⟩
    have hfk : f ∈ p.2.map Prod.fst :=
      hf (p.1, p.2.map Prod.fst) hmem (beq_iff_eq.mp hps)
    have hany : p.2.any (fun q => q.1 == f) = true := by
      rw [List.any_eq_true]
      obtain ⟨q, hq, hqf⟩ := List.mem_map.mp hfk
      exact ⟨q, hq, beq_iff_eq.mpr hqf⟩
    rw [if_pos hps]
    simp [setKey_shape p.2 f v hany]
  · rw [if_neg hps]

/-!  Value preservation through the two validators. -/

theorem vdStep_eval_none (r : Record) (ps pf : String)
    (hl : recLookup r ps pf = none) :
    validateDatesStep r (ps, pf) = r := by
  rw [validateDatesStep, hl]

theorem vdStep_eval_str (r : Record) (ps pf u : String)
    (hl : recLookup r ps pf = some (JVal.str u)) :
    validateDatesStep r (ps, pf) = r := by
  rw [validateDatesStep, hl]
  exact ite_self r

theorem vdStep_eval_nonstr (r : Record) (ps pf : String) (v : JVal)
    (hl : recLookup r ps pf = some v) (hns : ∀ u, v ≠ JVal.str u) :
    validateDatesStep r (ps, pf) =
      if (pyTruthy v && !(pyEqStr v "N/A")) = true
      then setField r ps pf (JVal.str "") else r := by
  rw [validateDatesStep, hl]
  cases v with
  | str u => exact absurd rfl (hns u)
  | num n => rfl
  | bool b => rfl
  | null => rfl
  | arr xs => rfl
  | obj kvs => rfl

/-- A date-validation step either leaves the record alone or blanks its own
field, and it blanks only when that field held a truthy non-string. -/
theorem vdStep_cases (r : Record) (ps pf : String) :
    validateDatesStep r (ps, pf) = r ∨
      (validateDatesStep r (ps, pf) = setField r ps pf (JVal.str "") ∧
        ∃ v, recLookup r ps pf = some v ∧ ∀ u, v ≠ JVal.str u) := by
  cases hl : recLookup r ps pf with
  | none => exact Or.inl (vdStep_eval_none r ps pf hl)
  | some v =>
      by_cases hstr : ∃ u, v = JVal.str u
      · obtain ⟨u, rfl⟩ := hstr
        exact Or.inl (vdStep_eval_str r ps pf u hl)
      · push_neg at hstr
        rw [vdStep_eval_nonstr r ps pf v hl hstr]
        by_cases hg : (pyTruthy v && !(pyEqStr v "N/A")) = true
        · rw [if_pos hg]
          exact Or.inr ⟨rfl, v, rfl, hstr⟩
        · rw [if_neg hg]
          exact Or.inl rfl

theorem vdStep_preserve_str (r : Record) (ps pf s f : String) (x : String)
    (h : recLookup r s f = some (JVal.str x)) :
    recLookup (validateDatesStep r (ps, pf)) s f = some (JVal.str x) := by
  rcases vdStep_cases r ps pf with heq | ⟨heq, v, hl, hns⟩
  · rw [heq]; exact h
  · rw [heq]
    have hne : s ≠ ps ∨ f ≠ pf := by
      by_contra hc
      push_neg at hc
      rw [hc.1, hc.2, hl] at h
      exact hns x (Option.some.inj h)
    rw [recLookup_setField_ne r ps pf _ s f hne]
    exact h

theorem vd_preserve_str (r : Record) (s f : String) (x : String)
    (h : recLookup r s f = some (JVal.str x)) :
    recLookup (validate_dates r) s f = some (JVal.str x) := by
  simp only [validate_dates, dateFields, List.foldl]
  exact vdStep_preserve_str _ _ _ _ _ _
    (vdStep_preserve_str _ _ _ _ _ _
      (vdStep_preserve_str _ _ _ _ _ _
        (vdStep_preserve_str _ _ _ _ _ _ h)))

theorem vmStep_eval_none (r : Record) (ps pf : String)
    (hl : recLookup r ps pf = none) :
    validateMonetaryStep r (ps, pf) = r := by
  rw [validateMonetaryStep, hl]

theorem vmStep_eval_some (r : Record) (ps pf : String) (v : JVal)
    (hl : recLookup r ps pf = some v) :
    validateMonetaryStep r (ps, pf) =
      if (pyTruthy v && !(pyEqStr v "N/A")) = true
      then setField r ps pf (JVal.str (moneyFilter (pyStr v))) else r := by
  rw [validateMonetaryStep, hl]

/-- A monetary-validation step either leaves the record alone or overwrites
its own field with the digit-and-dot filtering of the old value. -/
theorem vmStep_cases (r : Record) (ps pf : String) :
    validateMonetaryStep r (ps, pf) = r ∨
      (∃ v, recLookup r ps pf = some v ∧ pyTruthy v = true ∧
        pyEqStr v "N/A" = false ∧
        validateMonetaryStep r (ps, pf) =
          setField r ps pf (JVal.str (moneyFilter (pyStr v)))) := by
  cases hl : recLookup r ps pf with
  | none => exact Or.inl (vmStep_eval_none r ps pf hl)
  | some v =>
      rw [vmStep_eval_some r ps pf v hl]
      by_cases hg : (pyTruthy v && !(pyEqStr v "N/A")) = true
      · rw [if_pos hg]
        rw [Bool.and_eq_true, Bool.not_eq_true'] at hg
        exact Or.inr ⟨v, rfl, hg.1, hg.2, rfl⟩
      · rw [if_neg hg]
        exact Or.inl rfl

theorem vmStep_preserve_ne (r : Record) (ps pf s f : String)
    (hne : s ≠ ps ∨ f ≠ pf) :
    recLookup (validateMonetaryStep r (ps, pf)) s f = recLookup r s f := by
  rcases vmStep_cases r ps pf with heq | ⟨v, _, _, _, heq⟩
  · rw [heq]
  · rw [heq]
    exact recLookup_setField_ne r ps pf _ s f hne

theorem vmStep_preserve_empty (r : Record) (ps pf s f : String)
    (h : recLookup r s f = some (JVal.str "")) :
    recLookup (validateMonetaryStep r (ps, pf)) s f = some (JVal.str "") := by
  rcases vmStep_cases r ps pf with heq | ⟨v, hl, htr, _, heq⟩
  · rw [heq]; exact h
  · rw [heq]
    have hne : s ≠ ps ∨ f ≠ pf := by
      by_contra hc
      push_neg at hc
      rw [hc.1, hc.2, hl] at h
      rw [Option.some.inj h] at htr
      simp [pyTruthy] at htr
    rw [recLookup_setField_ne r ps pf _ s f hne]
    exact h

theorem vm_preserve_empty (r : Record) (s f : String)
    (h : recLookup r s f = some (JVal.str "")) :
    recLookup (validate_monetary r) s f = some (JVal.str "") := by
  simp only [validate_monetary, monetaryFields, List.foldl]
  exact vmStep_preserve_empty _ _ _ _ _
    (vmStep_preserve_empty _ _ _ _ _
      (vmStep_preserve_empty _ _ _ _ _
        (vmStep_preserve_empty _ _ _ _ _
          (vmStep_preserve_empty _ _ _ _ _ h))))

theorem vm_preserve_notmon (r : Record) (s f : String)
    (hne : ∀ p ∈ monetaryFields, s ≠ p.1 ∨ f ≠ p.2) :
    recLookup (validate_monetary r) s f = recLookup r s f := by
  simp only [validate_monetary, monetaryFields, List.foldl]
  rw [vmStep_preserve_ne _ _ _ _ _ (hne ("financials", "debt_assumed") (by decide)),
    vmStep_preserve_ne _ _ _ _ _ (hne ("financials", "enterprise_value") (by decide)),
    vmStep_preserve_ne _ _ _ _ _ (hne ("financials", "ebitda") (by decide)),
    vmStep_preserve_ne _ _ _ _ _ (hne ("financials", "revenue") (by decide)),
    vmStep_preserve_ne _ _ _ _ _ (hne ("deal_summary", "deal_size_usd") (by decide))]

theorem vmStep_update_self (r : Record) (ps pf : String) (v : String)
    (h : recLookup r ps pf = some (JVal.str v)) (hv : v ≠ "") (hna : v ≠ "N/A") :
    recLookup (validateMonetaryStep r (ps, pf)) ps pf =
      some (JVal.str (moneyFilter v)) := by
  rw [vmStep_eval_some r ps pf _ h]
  rw [if_pos (by simp [pyTruthy, pyEqStr, hv, hna])]
  exact recLookup_setField_self r ps pf _ _ h

/-!  Shape preservation through the two validators. -/

theorem vdStep_shape (r : Record) (ps pf : String)
    (hs : recShape r = schemaShapeC)
    (hf : ∀ pr ∈ schemaShapeC, pr.1 = ps → pf ∈ pr.2) :
    recShape (validateDatesStep r (ps, pf)) = schemaShapeC := by
  rcases vdStep_cases r ps pf with heq | ⟨heq, _, _, _⟩
  · rw [heq]; exact hs
  · rw [heq]
    exact setField_shape r ps pf _ hs hf

theorem vmStep_shape (r : Record) (ps pf : String)
    (hs : recShape r = schemaShapeC)
    (hf : ∀ pr ∈ schemaShapeC, pr.1 = ps → pf ∈ pr.2) :
    recShape (validateMonetaryStep r (ps, pf)) = schemaShapeC := by
  rcases vmStep_cases r ps pf with heq | ⟨v, _, _, _, heq⟩
  · rw [heq]; exact hs
  · rw [heq]
    exact setField_shape r ps pf _ hs hf

theorem vd_shape (r : Record) (hs : recShape r = schemaShapeC) :
    recShape (validate_dates r) = schemaShapeC := by
  simp only [validate_dates, dateFields, List.foldl]
  exact vdStep_shape _ _ _
    (vdStep_shape _ _ _
      (vdStep_shape _ _ _
        (vdStep_shape _ _ _ hs (by decide)) (by decide)) (by decide)) (by decide)

theorem vm_shape (r : Record) (hs : recShape r = schemaShapeC) :
    recShape (validate_monetary r) = schemaShapeC := by
  simp only [validate_monetary, monetaryFields, List.foldl]
  exact vmStep_shape _ _ _
    (vmStep_shape _ _ _
      (vmStep_shape _ _ _
        (vmStep_shape _ _ _
          (vmStep_shape _ _ _ hs (by decide)) (by decide)) (by decide))
      (by decide)) (by decide)

/-!  Schema-default auxiliary lemmas. -/

theorem schema_default_str (t0 : String) :
    ∀ s f, (s, f) ∈ schemaPairs →
      ∃ x, recLookup (mnaSchema t0) s f = some (JVal.str x) ∧
        ((s, f) ∈ monetaryFields → x = "") := by
  intro s f h
  fin_cases h <;>
    first
      | exact ⟨_, rfl, fun _ => rfl⟩
      | exact ⟨_, rfl, fun hc => absurd hc (by decide)⟩

/-- A nonempty string the merge loop leaves behind at a slot whose schema
default is the empty string can never be the literal `"N/A"`: the sentinel
collapse has already sent any case variant of it to the empty string. -/
theorem merged_str_notNA (t0 : String) (kvs : Obj) (s f : String) (v : String)
    (hmem : (s, f) ∈ schemaPairs)
    (hd : recLookup (mnaSchema t0) s f = some (JVal.str ""))
    (h : recLookup (mergeRec (mnaSchema t0) kvs) s f = some (JVal.str v))
    (hv : v ≠ "") : v ≠ "N/A" := by
  rw [mergeRec_lookup t0 kvs s f hmem] at h
  cases hp : parsedField kvs s f with
  | none =>
      rw [hp, hd] at h
      exact absurd (Option.some.inj h).symm (by simpa using hv)
  | some w =>
      rw [hp] at h
      cases w with
      | str u =>
          have hcv : cleanStr u = v := by
            have := Option.some.inj h
            simpa [cleanValue] using this
          intro hna
          rw [cleanStr] at hcv
          by_cases hs1 : sentinels.contains (pyLower (pyStrip u)) = true
          · rw [if_pos hs1] at hcv
            exact hv hcv.symm
          · rw [if_neg hs1] at hcv
            rw [hcv, hna] at hs1
            exact hs1 (by decide)
      | num n => simp [cleanValue] at h
      | bool b => simp [cleanValue] at h
      | null => simp [cleanValue] at h
      | arr xs => simp [cleanValue] at h
      | obj o => simp [cleanValue] at h

/-- A schema slot the parsed object does not supply keeps the schema default
through the whole clean (merge, then date and monetary validation). -/
theorem clean_missing_default (t0 : String) (kvs : Obj) (s f : String) (x : String)
    (hmem : (s, f) ∈ schemaPairs)
    (hp : parsedField kvs s f = none)
    (hd : recLookup (mnaSchema t0) s f = some (JVal.str x))
    (hmon : (s, f) ∈ monetaryFields → x = "") :
    recLookup (validate_monetary (validate_dates (mergeRec (mnaSchema t0) kvs))) s f =
      some (JVal.str x) := by
  have hm : recLookup (mergeRec (mnaSchema t0) kvs) s f = some (JVal.str x) := by
    rw [mergeRec_lookup t0 kvs s f hmem, hp, hd]
    rfl
  have hvd := vd_preserve_str _ s f x hm
  by_cases hmem2 : (s, f) ∈ monetaryFields
  · rw [hmon hmem2] at hvd ⊢
    exact vm_preserve_empty _ s f hvd
  · have hne : ∀ p ∈ monetaryFields, s ≠ p.1 ∨ f ≠ p.2 := by
      intro p hpm
      by_contra hc
      push_neg at hc
      rcases p with ⟨a, b⟩
      exact hmem2 (by rw [hc.1, hc.2]; exact hpm)
    rw [vm_preserve_notmon _ s f hne]
    exact hvd

/-- C1 (amended: `metadata.date_processed` defaults to the orchestrator's
construction-time timestamp rather than the empty string; every other
default is the empty string).  For every parsed object, the record produced
by `_validate_and_clean_data` has exactly the five-section schema shape —
no extra field of the parsed object is retained and no schema field is
dropped — and every schema slot the parsed object does not supply carries
the schema default. -/
theorem C1_clean_shape_and_defaults (t0 : String) (kvs : Obj) :
    ∃ r, validate_and_clean (mnaSchema t0) (JVal.obj kvs) = .ok r ∧
      recShape r = schemaShapeC ∧
      recShape (mnaSchema t0) = schemaShapeC ∧
      (∀ s f, (s, f) ∈ schemaPairs → parsedField kvs s f = none →
        recLookup r s f = recLookup (mnaSchema t0) s f) ∧
      (∀ s f, (s, f) ∈ schemaPairs → (s, f) ≠ ("metadata", "date_processed") →
        recLookup (mnaSchema t0) s f = some (JVal.str "")) ∧
      recLookup (mnaSchema t0) "metadata" "date_processed" = some (JVal.str t0) := by
  refine ⟨_, rfl, ?_, rfl, ?_, ?_, rfl⟩
  · exact vm_shape _ (vd_shape _ (mergeRec_shape t0 kvs))
  · intro s f hmem hp
    obtain ⟨x, hd, hmon⟩ := schema_default_str t0 s f hmem
    rw [hd]
    exact clean_missing_default t0 kvs s f x hmem hp hd hmon
  · intro s f hmem hne
    fin_cases hmem <;> first | rfl | exact absurd rfl hne

/-- C1, counterexample to the claim as stated: merging the empty object
leaves `metadata.date_processed` at the construction-time timestamp, not at
the empty string the claim promises for missing fields. -/
theorem C1_counterexample :
    (∃ r, validate_and_clean (mnaSchema "2025-06-01T12:00:00") (JVal.obj []) = .ok r ∧
      recLookup r "metadata" "date_processed" =
        some (JVal.str "2025-06-01T12:00:00")) ∧
    ("2025-06-01T12:00:00" : String) ≠ "" :=
  ⟨⟨_, rfl, rfl⟩, by decide⟩

/-- C6: the merge step sends every schema slot the parsed object supplies as
a string through exactly whitespace-trim plus sentinel-collapse; the result
keeps exactly the schema's shape (so a parsed object carrying exactly the
schema fields round-trips to itself cleaned); and merging the empty object
through the whole clean yields the schema instance itself, defaults intact. -/
theorem C6_merge_round_trip (t0 : String) (kvs : Obj) :
    (∀ s f, (s, f) ∈ schemaPairs → ∀ u : String,
      parsedField kvs s f = some (JVal.str u) →
      recLookup (mergeRec (mnaSchema t0) kvs) s f =
        some (JVal.str (cleanStr u))) ∧
    recShape (mergeRec (mnaSchema t0) kvs) = schemaShapeC ∧
    validate_and_clean (mnaSchema t0) (JVal.obj []) = .ok (mnaSchema t0) := by
  refine ⟨?_, mergeRec_shape t0 kvs, rfl⟩
  intro s f hmem u hp
  rw [mergeRec_lookup t0 kvs s f hmem, hp]
  rfl

/-- C10: a schema slot the parsed object supplies with a non-string value
(null, number, list, dict, bool) is copied into the merged record unchanged
— no trim, no sentinel collapse — so the cleaned record can hold a `None`
where the schema default is a string, as the concrete `deal_name : null`
run shows. -/
theorem C10_nonstring_passthrough (t0 : String) (kvs : Obj) :
    (∀ s f v, (s, f) ∈ schemaPairs → parsedField kvs s f = some v →
      v.isStr = false →
      recLookup (mergeRec (mnaSchema t0) kvs) s f = some v) ∧
    (∃ r, validate_and_clean (mnaSchema t0)
        (JVal.obj [("deal_summary", JVal.obj [("deal_name", JVal.null)])]) =
          .ok r ∧
      recLookup r "deal_summary" "deal_name" = some JVal.null ∧
      recLookup (mnaSchema t0) "deal_summary" "deal_name" =
        some (JVal.str "")) := by
  refine ⟨?_, _, rfl, rfl, rfl⟩
  intro s f v hmem hp hns
  rw [mergeRec_lookup t0 kvs s f hmem, hp]
  cases v with
  | str u => simp [JVal.isStr] at hns
  | num n => rfl
  | bool b => rfl
  | null => rfl
  | arr xs => rfl
  | obj o => rfl

/-- C7: within the full clean, a monetary field whose merged value is a
nonempty string `v` ends up as `v` with every character other than digits
and decimal points stripped (the `value != "N/A"` guard in the code is
vacuous there, since the sentinel collapse has already removed any case
variant of `N/A`); concretely `"$1,234.56M"` becomes `"1234.56"`. -/
theorem C7_monetary_cleaning (t0 : String) (kvs : Obj) :
    (∀ s f, (s, f) ∈ monetaryFields → ∀ v : String,
      recLookup (mergeRec (mnaSchema t0) kvs) s f = some (JVal.str v) →
      v ≠ "" →
      ∀ r, validate_and_clean (mnaSchema t0) (JVal.obj kvs) = .ok r →
        recLookup r s f = some (JVal.str (moneyFilter v))) ∧
    (∃ r, validate_and_clean (mnaSchema t0)
        (JVal.obj [("financials", JVal.obj [("revenue", JVal.str "$1,234.56M")])]) =
          .ok r ∧
      recLookup r "financials" "revenue" = some (JVal.str "1234.56")) := by
  refine ⟨?_, _, rfl, rfl⟩
  intro s f hmem v hv hne r hr
  have hrr : validate_monetary (validate_dates (mergeRec (mnaSchema t0) kvs)) = r :=
    Except.ok.inj hr
  subst hrr
  have hna : v ≠ "N/A" := by
    fin_cases hmem <;>
      ((refine merged_str_notNA t0 kvs _ _ v ?_ ?_ hv hne) <;>
        first | decide | rfl)
  have hvd := vd_preserve_str _ s f v hv
  fin_cases hmem
  · simp only [validate_monetary, monetaryFields, List.foldl]
    rw [vmStep_preserve_ne _ "financials" "debt_assumed" _ _ (by decide),
      vmStep_preserve_ne _ "financials" "enterprise_value" _ _ (by decide),
      vmStep_preserve_ne _ "financials" "ebitda" _ _ (by decide),
      vmStep_preserve_ne _ "financials" "revenue" _ _ (by decide)]
    exact vmStep_update_self _ "deal_summary" "deal_size_usd" v hvd hne hna
  · simp only [validate_monetary, monetaryFields, List.foldl]
    rw [vmStep_preserve_ne _ "financials" "debt_assumed" _ _ (by decide),
      vmStep_preserve_ne _ "financials" "enterprise_value" _ _ (by decide),
      vmStep_preserve_ne _ "financials" "ebitda" _ _ (by decide)]
    have h1 : recLookup (validateMonetaryStep
        (validate_dates (mergeRec (mnaSchema t0) kvs))
        ("deal_summary", "deal_size_usd")) "financials" "revenue" =
        some (JVal.str v) := by
      rw [vmStep_preserve_ne _ "deal_summary" "deal_size_usd" _ _ (by decide)]
      exact hvd
    exact vmStep_update_self _ "financials" "revenue" v h1 hne hna
  · simp only [validate_monetary, monetaryFields, List.foldl]
    rw [vmStep_preserve_ne _ "financials" "debt_assumed" _ _ (by decide),
      vmStep_preserve_ne _ "financials" "enterprise_value" _ _ (by decide)]
    have h1 : recLookup (validateMonetaryStep (validateMonetaryStep
        (validate_dates (mergeRec (mnaSchema t0) kvs))
        ("deal_summary", "deal_size_usd")) ("financials", "revenue"))
        "financials" "ebitda" = some (JVal.str v) := by
      rw [vmStep_preserve_ne _ "financials" "revenue" _ _ (by decide),
        vmStep_preserve_ne _ "deal_summary" "deal_size_usd" _ _ (by decide)]
      exact hvd
    exact vmStep_update_self _ "financials" "ebitda" v h1 hne hna
  · simp only [validate_monetary, monetaryFields, List.foldl]
    rw [vmStep_preserve_ne _ "financials" "debt_assumed" _ _ (by decide)]
    have h1 : recLookup (validateMonetaryStep (validateMonetaryStep
        (validateMonetaryStep
          (validate_dates (mergeRec (mnaSchema t0) kvs))
          ("deal_summary", "deal_size_usd")) ("financials", "revenue"))
        ("financials", "ebitda")) "financials" "enterprise_value" =
        some (JVal.str v) := by
      rw [vmStep_preserve_ne _ "financials" "ebitda" _ _ (by decide),
        vmStep_preserve_ne _ "financials" "revenue" _ _ (by decide),
        vmStep_preserve_ne _ "deal_summary" "deal_size_usd" _ _ (by decide)]
      exact hvd
    exact vmStep_update_self _ "financials" "enterprise_value" v h1 hne hna
  · simp only [validate_monetary, monetaryFields, List.foldl]
    have h1 : recLookup (validateMonetaryStep (validateMonetaryStep
        (validateMonetaryStep (validateMonetaryStep
          (validate_dates (mergeRec (mnaSchema t0) kvs))
          ("deal_summary", "deal_size_usd")) ("financials", "revenue"))
        ("financials", "ebitda")) ("financials", "enterprise_value"))
        "financials" "debt_assumed" = some (JVal.str v) := by
      rw [vmStep_preserve_ne _ "financials" "enterprise_value" _ _ (by decide),
        vmStep_preserve_ne _ "financials" "ebitda" _ _ (by decide),
        vmStep_preserve_ne _ "financials" "revenue" _ _ (by decide),
        vmStep_preserve_ne _ "deal_summary" "deal_size_usd" _ _ (by decide)]
      exact hvd
    exact vmStep_update_self _ "financials" "debt_assumed" v h1 hne hna

/-!  Lookup lemmas for the `process_document` paths. -/

theorem alookup_none_of_not_mem {α : Type} (l : List (String × α)) (k : String)
    (h : k ∉ l.map Prod.fst) : alookup l k = none := by
  induction l with
  | nil => rfl
  | cons q rest ih =>
      simp only [List.map_cons, List.mem_cons, not_or] at h
      rw [alookup, if_neg (by simp [beq_iff_eq]; exact fun hc => h.1 hc.symm)]
      exact ih h.2

theorem alookup_of_shape (X : Record) (SH : List (String × List String))
    (hs : recShape X = SH) (s : String) :
    (match afind SH s with
     | some pr => ∃ fields, alookup X s = some fields ∧ fields.map Prod.fst = pr.2
     | none => alookup X s = none) := by
  induction X generalizing SH with
  | nil =>
      rw [recShape] at hs
      simp only [List.map_nil] at hs
      subst hs
      rfl
  | cons p X ih =>
      rw [recShape] at hs
      simp only [List.map_cons] at hs
      subst hs
      simp only [afind]
      by_cases hp : (p.1 == s) = true
      · rw [if_pos hp]
        exact ⟨p.2, by rw [alookup, if_pos hp], rfl⟩
      · rw [if_neg hp]
        have := ih (recShape X) rfl
        rw [alookup, if_neg hp]
        exact this

/-- A record with the schema's exact shape has no
`metadata.extraction_error` entry. -/
theorem ee_none_of_shape (X : Record) (hs : recShape X = schemaShapeC) :
    recLookup X "metadata" "extraction_error" = none := by
  have h := alookup_of_shape X schemaShapeC hs "metadata"
  rw [show afind schemaShapeC "metadata" =
      some ("metadata",
        ["deal_id", "source_file_name", "date_processed",
         "extraction_confidence"]) from rfl] at h
  obtain ⟨fields, hl, hmap⟩ := h
  rw [recLookup, hl, Option.some_bind']
  exact alookup_none_of_not_mem fields "extraction_error" (by rw [hmap]; decide)

/-- The parse-failure path feeds the schema itself back into the merge:
each schema slot reads back its own default. -/
theorem parsed_self (t0 : String) :
    ∀ s f, (s, f) ∈ schemaPairs →
      parsedField ((mnaSchema t0).map (fun p => (p.1, JVal.obj p.2))) s f =
        recLookup (mnaSchema t0) s f := by
  intro s f h
  fin_cases h <;> rfl

theorem schema_default_emptystr (t0 : String) :
    ∀ s f, (s, f) ∈ schemaPairs → (s, f) ≠ ("metadata", "date_processed") →
      recLookup (mnaSchema t0) s f = some (JVal.str "") := by
  intro s f h hne
  fin_cases h <;> first | rfl | exact absurd rfl hne

/-- An empty-string merged value survives both validators. -/
theorem clean_keeps_emptystr (t0 : String) (kvs : Obj) (s f : String)
    (hm : recLookup (mergeRec (mnaSchema t0) kvs) s f = some (JVal.str "")) :
    recLookup (validate_monetary (validate_dates (mergeRec (mnaSchema t0) kvs)))
      s f = some (JVal.str "") :=
  vm_preserve_empty _ s f (vd_preserve_str _ s f "" hm)

/-- In the parse-failure path, every schema slot other than
`metadata.date_processed` comes out of the clean as the empty string. -/
theorem cleaned_selfmerge_default (t0 : String) :
    ∀ s f, (s, f) ∈ schemaPairs → (s, f) ≠ ("metadata", "date_processed") →
      recLookup (validate_monetary (validate_dates (mergeRec (mnaSchema t0)
        ((mnaSchema t0).map (fun p => (p.1, JVal.obj p.2)))))) s f =
        some (JVal.str "") := by
  intro s f hmem hne
  apply clean_keeps_emptystr
  rw [mergeRec_lookup t0 _ s f hmem, parsed_self t0 s f hmem,
    schema_default_emptystr t0 s f hmem hne]
  rfl

/-- In the parse-failure path, `metadata.date_processed` comes out of the
clean as the cleaned construction timestamp. -/
theorem cleaned_selfmerge_dp (t0 : String) :
    recLookup (validate_monetary (validate_dates (mergeRec (mnaSchema t0)
      ((mnaSchema t0).map (fun p => (p.1, JVal.obj p.2))))))
      "metadata" "date_processed" = some (JVal.str (cleanStr t0)) := by
  have hm : recLookup (mergeRec (mnaSchema t0)
      ((mnaSchema t0).map (fun p => (p.1, JVal.obj p.2))))
      "metadata" "date_processed" = some (JVal.str (cleanStr t0)) := by
    rw [mergeRec_lookup t0 _ _ _ (by decide),
      parsed_self t0 "metadata" "date_processed" (by decide)]
    rfl
  have hvd := vd_preserve_str _ _ _ _ hm
  rw [vm_preserve_notmon _ _ _ (by decide)]
  exact hvd

/-- With an empty (or emptied) target company the deal id falls back to the
timestamp form. -/
theorem generate_deal_id_fallback (data : Record) (now : PyDateTime)
    (ht : recLookup data "deal_summary" "target_company" = some (JVal.str "")) :
    generate_deal_id data now = fallbackDealId now := by
  rw [recLookup] at ht
  rw [generate_deal_id, ht]
  rfl

/-- C2: `process_document` never propagates an exception — each failure
path of the model is an explicit branch.  (a) An exception `e` from prompt
building or the completion call yields the default-schema record with
`metadata.extraction_error = e` and every schema field still at its default;
(b) an exception raised during cleaning (a non-dict model response) is
caught the same way; (c) a response that is not parseable as JSON yields the
record with every extracted field at its schema default, no
`extraction_error` marker, and only the always-stamped
`metadata.date_processed` / `metadata.deal_id` set. -/
theorem C2_failure_semantics (t0 tNow : String) (dt : PyDateTime) :
    (∀ e : String,
      process_document (mnaSchema t0) (.error e) tNow dt =
        (errorRecord (mnaSchema t0) e, errorRecord (mnaSchema t0) e) ∧
      recLookup (errorRecord (mnaSchema t0) e) "metadata" "extraction_error" =
        some (JVal.str e) ∧
      ∀ s f, (s, f) ∈ schemaPairs →
        recLookup (errorRecord (mnaSchema t0) e) s f =
          recLookup (mnaSchema t0) s f) ∧
    (∀ (v : JVal) (e : String), merge_clean (mnaSchema t0) v = .error e →
      (process_document (mnaSchema t0) (.ok (some v)) tNow dt).1 =
        errorRecord (mnaSchema t0) e) ∧
    (∀ r, r = (process_document (mnaSchema t0) (.ok none) tNow dt).1 →
      recLookup r "metadata" "extraction_error" = none ∧
      recLookup r "metadata" "date_processed" = some (JVal.str tNow) ∧
      recLookup r "metadata" "deal_id" = some (JVal.str (fallbackDealId dt)) ∧
      ∀ s f, (s, f) ∈ schemaPairs → f ≠ "date_processed" → f ≠ "deal_id" →
        recLookup r s f = some (JVal.str "")) := by
  refine ⟨?_, ?_, ?_⟩
  · intro e
    refine ⟨rfl, rfl, ?_⟩
    intro s f hmem
    fin_cases hmem <;>
      exact recLookup_setField_ne _ _ _ _ _ _ (by decide)
  · intro v e hm
    have hvc : validate_and_clean (mnaSchema t0) v = .error e := by
      rw [validate_and_clean, hm]
      rfl
    simp only [process_document, parse_ai_response, hvc]
  · intro r hr
    subst hr
    have hshape : recShape (validate_monetary (validate_dates (mergeRec
        (mnaSchema t0) ((mnaSchema t0).map (fun p => (p.1, JVal.obj p.2)))))) =
        schemaShapeC :=
      vm_shape _ (vd_shape _ (mergeRec_shape t0 _))
    have hstruct : (process_document (mnaSchema t0) (.ok none) tNow dt).1 =
        setField (setField (validate_monetary (validate_dates (mergeRec
            (mnaSchema t0) ((mnaSchema t0).map (fun p => (p.1, JVal.obj p.2))))))
          "metadata" "date_processed" (JVal.str tNow))
          "metadata" "deal_id"
          (JVal.str (generate_deal_id
            (setField (validate_monetary (validate_dates (mergeRec
              (mnaSchema t0) ((mnaSchema t0).map (fun p => (p.1, JVal.obj p.2))))))
              "metadata" "date_processed" (JVal.str tNow)) dt)) := by
      have hok : validate_and_clean (mnaSchema t0)
          (parse_ai_response (mnaSchema t0) none) =
          .ok (validate_monetary (validate_dates (mergeRec (mnaSchema t0)
            ((mnaSchema t0).map (fun p => (p.1, JVal.obj p.2)))))) := rfl
      simp only [process_document]
      rw [hok]
    refine ⟨?_, ?_, ?_, ?_⟩
    · rw [hstruct,
        recLookup_setField_ne _ "metadata" "deal_id" _ "metadata"
          "extraction_error" (Or.inr (by decide)),
        recLookup_setField_ne _ "metadata" "date_processed" _ "metadata"
          "extraction_error" (Or.inr (by decide))]
      exact ee_none_of_shape _ hshape
    · rw [hstruct,
        recLookup_setField_ne _ "metadata" "deal_id" _ "metadata"
          "date_processed" (Or.inr (by decide))]
      exact recLookup_setField_self _ _ _ _ _ (cleaned_selfmerge_dp t0)
    · rw [hstruct]
      have h1 : recLookup (setField (validate_monetary (validate_dates (mergeRec
          (mnaSchema t0) ((mnaSchema t0).map (fun p => (p.1, JVal.obj p.2))))))
          "metadata" "date_processed" (JVal.str tNow)) "metadata" "deal_id" =
          some (JVal.str "") := by
        rw [recLookup_setField_ne _ "metadata" "date_processed" _ "metadata"
          "deal_id" (Or.inr (by decide))]
        exact cleaned_selfmerge_default t0 "metadata" "deal_id" (by decide)
          (by decide)
      have ht : recLookup (setField (validate_monetary (validate_dates (mergeRec
          (mnaSchema t0) ((mnaSchema t0).map (fun p => (p.1, JVal.obj p.2))))))
          "metadata" "date_processed" (JVal.str tNow)) "deal_summary"
          "target_company" = some (JVal.str "") := by
        rw [recLookup_setField_ne _ "metadata" "date_processed" _ "deal_summary"
          "target_company" (Or.inl (by decide))]
        exact cleaned_selfmerge_default t0 "deal_summary" "target_company"
          (by decide) (by decide)
      rw [recLookup_setField_self _ _ _ _ _ h1,
        generate_deal_id_fallback _ dt ht]
    · intro s f hmem h1 h2
      rw [hstruct,
        recLookup_setField_ne _ "metadata" "deal_id" _ s f (Or.inr h2),
        recLookup_setField_ne _ "metadata" "date_processed" _ s f (Or.inr h1)]
      exact cleaned_selfmerge_default t0 s f hmem
        (fun hc => h1 (congrArg Prod.snd hc))

/-- C3 is wrong about the code: `dict.copy()` is shallow, so the merge loop
writes through the copied record into the orchestrator's own
`self.mna_schema`.  After one successful `process_document` call whose model
response fills `deal_summary.deal_name`, the schema's stored default for
that field — seen by every later call — is the extracted value, not the
original empty string. -/
theorem C3_schema_mutated_by_process :
    recLookup (mnaSchema "2024-01-01T00:00:00") "deal_summary" "deal_name" =
      some (JVal.str "") ∧
    recLookup
      (process_document (mnaSchema "2024-01-01T00:00:00")
        (.ok (some (JVal.obj [("deal_summary",
            JVal.obj [("deal_name", JVal.str "Project X")])])))
        "2024-01-01T00:00:01" ⟨2024, 1, 1, 0, 0, 1⟩).2
      "deal_summary" "deal_name" = some (JVal.str "Project X") ∧
    ("Project X" : String) ≠ "" := by
  refine ⟨rfl, ?_, by decide⟩
  have hstruct : (process_document (mnaSchema "2024-01-01T00:00:00")
      (.ok (some (JVal.obj [("deal_summary",
          JVal.obj [("deal_name", JVal.str "Project X")])])))
      "2024-01-01T00:00:01" ⟨2024, 1, 1, 0, 0, 1⟩).2 =
      setField (setField (validate_monetary (validate_dates (mergeRec
          (mnaSchema "2024-01-01T00:00:00")
          [("deal_summary", JVal.obj [("deal_name", JVal.str "Project X")])])))
        "metadata" "date_processed" (JVal.str "2024-01-01T00:00:01"))
        "metadata" "deal_id"
        (JVal.str (generate_deal_id
          (setField (validate_monetary (validate_dates (mergeRec
            (mnaSchema "2024-01-01T00:00:00")
            [("deal_summary", JVal.obj [("deal_name", JVal.str "Project X")])])))
            "metadata" "date_processed" (JVal.str "2024-01-01T00:00:01"))
          ⟨2024, 1, 1, 0, 0, 1⟩)) := by
    have hok : validate_and_clean (mnaSchema "2024-01-01T00:00:00")
        (parse_ai_response (mnaSchema "2024-01-01T00:00:00")
          (some (JVal.obj [("deal_summary",
            JVal.obj [("deal_name", JVal.str "Project X")])]))) =
        .ok (validate_monetary (validate_dates (mergeRec
          (mnaSchema "2024-01-01T00:00:00")
          [("deal_summary", JVal.obj [("deal_name", JVal.str "Project X")])]))) :=
      rfl
    simp only [process_document]
    rw [hok]
  rw [hstruct,
    recLookup_setField_ne _ "metadata" "deal_id" _ "deal_summary" "deal_name"
      (Or.inl (by decide)),
    recLookup_setField_ne _ "metadata" "date_processed" _ "deal_summary"
      "deal_name" (Or.inl (by decide)),
    vm_preserve_notmon _ "deal_summary" "deal_name" (by decide)]
  apply vd_preserve_str
  rw [mergeRec_lookup _ _ _ _ (by decide)]
  rfl

/-!  Deal-id pattern lemmas. -/

theorem digitChar_mod_isDigit (n : Nat) :
    (Nat.digitChar (n % 10)).isDigit = true := by
  have h : n % 10 < 10 := Nat.mod_lt _ (by norm_num)
  set m := n % 10 with hm
  interval_cases m <;> rfl

theorem fallback_matches (now : PyDateTime) :
    isTimestampDealId (fallbackDealId now) = true := by
  have hl : (fallbackDealId now).toList =
      'D' :: 'E' :: 'A' :: 'L' :: '_' ::
      Nat.digitChar (now.year / 1000 % 10) :: Nat.digitChar (now.year / 100 % 10) ::
      Nat.digitChar (now.year / 10 % 10) :: Nat.digitChar (now.year % 10) ::
      Nat.digitChar (now.month / 10 % 10) :: Nat.digitChar (now.month % 10) ::
      Nat.digitChar (now.day / 10 % 10) :: Nat.digitChar (now.day % 10) :: '_' ::
      Nat.digitChar (now.hour / 10 % 10) :: Nat.digitChar (now.hour % 10) ::
      Nat.digitChar (now.minute / 10 % 10) :: Nat.digitChar (now.minute % 10) ::
      Nat.digitChar (now.second / 10 % 10) :: Nat.digitChar (now.second % 10) ::
      [] := rfl
  simp only [isTimestampDealId, hl]
  simp [digitChar_mod_isDigit]

/-- C8: with a nonempty string target, the deal id is `DEAL_` plus the first
ten word characters of the target plus `_` plus the first eight digits of
the announcement date (concretely `DEAL_AcmePowerC_20240315` for
"Acme Power Co." / "2024-03-15"); with an empty or missing target it is the
timestamp fallback, which always matches `DEAL_` + 8 digits + `_` + 6
digits. -/
theorem C8_deal_id (r : Record) (now : PyDateTime) :
    (∀ t d : String,
      recLookup r "deal_summary" "target_company" = some (JVal.str t) →
      recLookup r "deal_summary" "announcement_date" = some (JVal.str d) →
      t ≠ "" →
      generate_deal_id r now =
        "DEAL_" ++ String.mk ((wordFilter t).take 10) ++ "_" ++
          String.mk ((digitFilter d).take 8)) ∧
    (generate_deal_id
        [("deal_summary",
          [("target_company", JVal.str "Acme Power Co."),
           ("announcement_date", JVal.str "2024-03-15")])] now =
      "DEAL_AcmePowerC_20240315") ∧
    (recLookup r "deal_summary" "target_company" = some (JVal.str "") →
      generate_deal_id r now = fallbackDealId now) ∧
    (alookup r "deal_summary" = none →
      generate_deal_id r now = fallbackDealId now) ∧
    isTimestampDealId (fallbackDealId now) = true := by
  refine ⟨?_, rfl, generate_deal_id_fallback r now, ?_, fallback_matches now⟩
  · intro t d ht hd hne
    rw [recLookup] at ht hd
    rw [generate_deal_id, ht, hd]
    have hg : pyTruthy ((some (JVal.str t)).getD (JVal.str "")) = true := by
      simp [pyTruthy, hne]
    rw [if_pos hg]
    rfl
  · intro hsec
    rw [generate_deal_id, hsec]
    rfl

/-!  C9: fixed-keyword counters. -/

theorem sum_ite_eq_countP {α : Type} (l : List α) (p : α → Bool) :
    (l.map (fun x => if p x then (1 : Nat) else 0)).sum = l.countP p := by
  induction l with
  | nil => rfl
  | cons q rest ih =>
      simp only [List.map_cons, List.sum_cons, List.countP_cons, ih]
      by_cases hq : p q = true
      · simp only [hq, if_true]
        omega
      · simp only [hq, if_false]
        omega

/-- C9: `is_financial_document` is true exactly when at least 3 of its 12
fixed keywords occur (case-insensitive substring test) in the text, and
`is_mna_document` exactly when at least 2 of its 15 fixed keywords occur;
in particular a text containing exactly 3 distinct financial keywords
classifies as financial and one containing exactly 2 does not. -/
theorem C9_keyword_thresholds :
    (∀ t : String, is_financial_document t = true ↔
      3 ≤ financialKeywords.countP (fun k => strContains (pyLower t) k)) ∧
    (∀ t : String, is_mna_document t = true ↔
      2 ≤ mnaKeywords.countP (fun k => strContains (pyLower t) k)) ∧
    (is_financial_document "revenue ebitda earnings" = true ∧
      financialKeywords.countP
        (fun k => strContains (pyLower "revenue ebitda earnings") k) = 3) ∧
    (is_financial_document "revenue ebitda" = false ∧
      financialKeywords.countP
        (fun k => strContains (pyLower "revenue ebitda") k) = 2) := by
  refine ⟨?_, ?_, ⟨by decide, by decide⟩, ⟨by decide, by decide⟩⟩
  · intro t
    rw [is_financial_document, sum_ite_eq_countP]
    exact decide_eq_true_iff
  · intro t
    rw [is_mna_document, sum_ite_eq_countP]
    exact decide_eq_true_iff

/-!  C5: confidence normalization. -/

/-- C5, counterexample to the claim as stated: on a text with zero total
raw score the code returns the un-normalized scores dict — all four labels
mapped to zero — not the empty mapping (only the dead `except` branch
returns the empty dict). -/
theorem C5_counterexample :
    totalRaw "" = 0 ∧
    get_classification_confidence "" =
      [("press_release", (0 : ℚ)), ("quarterly_report", 0),
       ("annual_report", 0), ("investor_deck", 0)] ∧
    get_classification_confidence "" ≠ ([] : List (String × ℚ)) := by
  have h0 : scoresList "" =
      [("press_release", 0), ("quarterly_report", 0),
       ("annual_report", 0), ("investor_deck", 0)] := by decide
  have h1 : get_classification_confidence "" =
      [("press_release", (0 : ℚ)), ("quarterly_report", 0),
       ("annual_report", 0), ("investor_deck", 0)] := by
    rw [get_classification_confidence, h0]
    norm_num
  refine ⟨by decide, h1, ?_⟩
  rw [h1]
  simp

theorem conf_sum_helper (x y z w : ℚ) (h : 0 < x + (y + (z + (w + 0)))) :
    x / (x + (y + (z + (w + 0)))) * 100 + (y / (x + (y + (z + (w + 0)))) * 100 +
      (z / (x + (y + (z + (w + 0)))) * 100 +
        (w / (x + (y + (z + (w + 0)))) * 100 + 0))) = 100 := by
  have hne : x + (y + (z + (w + 0))) ≠ 0 := ne_of_gt h
  have hne2 : x + y + z + w ≠ 0 := by
    intro hc
    exact hne (by linarith)
  field_simp [hne2]
  rw [div_eq_iff (by intro hc; exact hne (by linarith))]
  ring

/-- C5 (amended: at zero total the mapping returned carries all four labels
with value zero, rather than being empty): with any signal present, each
label's confidence is its raw score divided by the total raw score, as a
percentage, and the four percentages sum to exactly 100 in exact
arithmetic. -/
theorem C5_confidence_normalization (text : String) :
    (0 < totalRaw text →
      get_classification_confidence text =
        (scoresList text).map
          (fun p => (p.1, (p.2 : ℚ) / (totalRaw text : ℚ) * 100)) ∧
      ((get_classification_confidence text).map Prod.snd).sum = 100) ∧
    (totalRaw text = 0 →
      get_classification_confidence text =
        [("press_release", (0 : ℚ)), ("quarterly_report", 0),
         ("annual_report", 0), ("investor_deck", 0)]) := by
  have hsl : scoresList text =
      [("press_release", scoreOf text (patterns.get! 0).2.1 (patterns.get! 0).2.2),
       ("quarterly_report", scoreOf text (patterns.get! 1).2.1 (patterns.get! 1).2.2),
       ("annual_report", scoreOf text (patterns.get! 2).2.1 (patterns.get! 2).2.2),
       ("investor_deck", scoreOf text (patterns.get! 3).2.1 (patterns.get! 3).2.2)] :=
    rfl
  generalize ha : scoreOf text (patterns.get! 0).2.1 (patterns.get! 0).2.2 = a at hsl
  generalize hb : scoreOf text (patterns.get! 1).2.1 (patterns.get! 1).2.2 = b at hsl
  generalize hc : scoreOf text (patterns.get! 2).2.1 (patterns.get! 2).2.2 = c at hsl
  generalize hd : scoreOf text (patterns.get! 3).2.1 (patterns.get! 3).2.2 = d at hsl
  have htot : totalRaw text = a + (b + (c + (d + 0))) := by
    rw [totalRaw, hsl]
    rfl
  constructor
  · intro hpos
    have hq : (0 : ℚ) < (a : ℚ) + ((b : ℚ) + ((c : ℚ) + ((d : ℚ) + 0))) := by
      rw [htot] at hpos
      exact_mod_cast hpos
    constructor
    · rw [get_classification_confidence, hsl, htot]
      simp only [List.map_cons, List.map_nil, List.sum_cons, List.sum_nil]
      rw [if_pos hq]
      push_cast
      ring_nf
    · rw [get_classification_confidence, hsl]
      simp only [List.map_cons, List.map_nil, List.sum_cons, List.sum_nil]
      rw [if_pos hq]
      simp only [List.map_cons, List.map_nil, List.sum_cons, List.sum_nil]
      exact conf_sum_helper (a : ℚ) (b : ℚ) (c : ℚ) (d : ℚ) hq
  · intro hz
    rw [htot] at hz
    have h1 : a = 0 := by omega
    have h2 : b = 0 := by omega
    have h3 : c = 0 := by omega
    have h4 : d = 0 := by omega
    subst h1
    subst h2
    subst h3
    subst h4
    rw [get_classification_confidence, hsl]
    norm_num

/-!  C4: counting machinery.  Python's `str.count` counts non-overlapping
occurrences; the spec's score counts every occurrence, overlaps included.
None of the classifier's patterns has a nonempty border (a proper prefix
that is also a suffix), so occurrences of them can never overlap and the
two counts agree on every text. -/

theorem matchAt_take {pat hay : List Char} (h : matchAt pat hay = true) :
    hay.take pat.length = pat := by
  simpa [matchAt] using h

theorem matchAt_length_le {pat hay : List Char} (h : matchAt pat hay = true) :
    pat.length ≤ hay.length := by
  have := congrArg List.length (matchAt_take h)
  rw [List.length_take] at this
  omega

theorem matchAt_nil {pat : List Char} (hp : pat ≠ []) :
    matchAt pat [] = false := by
  cases hpv : pat with
  | nil => exact absurd hpv hp
  | cons c t => rfl

theorem matchAt_of_take {pat hay : List Char} (h : hay.take pat.length = pat) :
    matchAt pat hay = true := by
  simp [matchAt, h]

theorem pyCountF_irrel (pat : List Char) (hp : pat ≠ []) :
    ∀ f1 : Nat, ∀ (hay : List Char) (f2 : Nat),
      hay.length < f1 → hay.length < f2 →
      pyCountF pat f1 hay = pyCountF pat f2 hay := by
  intro f1
  induction f1 with
  | zero =>
      intro hay f2 h1 _
      omega
  | succ g ih =>
      intro hay f2 h1 h2
      cases f2 with
      | zero => omega
      | succ g2 =>
          have hpe : pat.isEmpty = false := by
            cases pat with
            | nil => exact absurd rfl hp
            | cons c t => rfl
          simp only [pyCountF]
          by_cases hm : matchAt pat hay = true
          · rw [if_pos hm, if_pos hm, hpe]
            simp only [Bool.false_eq_true, if_false]
            have hlen := matchAt_length_le hm
            have hpos : 0 < pat.length := List.length_pos.mpr hp
            have hd : (hay.drop pat.length).length = hay.length - pat.length :=
              List.length_drop _ _
            congr 1
            exact ih (hay.drop pat.length) g2 (by omega) (by omega)
          · rw [if_neg hm, if_neg hm]
            cases hay with
            | nil => rfl
            | cons c t =>
                simp only [List.length_cons] at h1 h2
                exact ih t g2 (by omega) (by omega)

/-- The natural recurrence of Python `str.count` for a nonempty pattern. -/
theorem pyCount_eq (pat hay : List Char) (hp : pat ≠ []) :
    pyCount pat hay =
      if matchAt pat hay then 1 + pyCount pat (hay.drop pat.length)
      else
        match hay with
        | [] => 0
        | _ :: t => pyCount pat t := by
  have hpe : pat.isEmpty = false := by
    cases pat with
    | nil => exact absurd rfl hp
    | cons c t => rfl
  rw [pyCount]
  simp only [pyCountF]
  by_cases hm : matchAt pat hay = true
  · rw [if_pos hm, if_pos hm, hpe]
    simp only [Bool.false_eq_true, if_false]
    have hlen := matchAt_length_le hm
    have hpos : 0 < pat.length := List.length_pos.mpr hp
    have hd : (hay.drop pat.length).length = hay.length - pat.length :=
      List.length_drop _ _
    congr 1
    exact pyCountF_irrel pat hp hay.length (hay.drop pat.length)
      ((hay.drop pat.length).length + 1) (by omega) (by omega)
  · rw [if_neg hm, if_neg hm]
    cases hay with
    | nil => rfl
    | cons c t => rfl

theorem borderless_of_borderlessB (pat : List Char) (h : borderlessB pat = true) :
    Borderless pat := by
  intro k hk1 hk2 hceq
  rw [borderlessB, List.all_eq_true] at h
  have h2 := h k (List.mem_range.mpr hk2)
  simp only [Bool.or_eq_true, beq_iff_eq, Bool.not_eq_true'] at h2
  rcases h2 with h1 | h1
  · omega
  · rw [hceq] at h1
    simp at h1

/-- Occurrences of a border-free pattern cannot overlap: a match at the
start rules out a match at any of the next `length - 1` positions. -/
theorem no_overlap (pat : List Char) (hb : Borderless pat) (_hp : pat ≠ [])
    (hay : List Char) (h0 : matchAt pat hay = true) :
    ∀ j, 0 < j → j < pat.length → matchAt pat (hay.drop j) = false := by
  intro j hj1 hj2
  by_contra hc
  rw [Bool.not_eq_false] at hc
  have ht0 := matchAt_take h0
  have htj := matchAt_take hc
  have e1 : pat.drop j = (hay.drop j).take (pat.length - j) := by
    conv_lhs => rw [← ht0]
    exact List.drop_take ..
  have e2 : pat.take (pat.length - j) = (hay.drop j).take (pat.length - j) := by
    have hlist : ((hay.drop j).take pat.length).take (pat.length - j) =
        (hay.drop j).take (pat.length - j) := by
      rw [List.take_take]
      congr 1
      have hle : pat.length - j ≤ pat.length := by omega
      exact Nat.min_eq_left hle
    rw [← hlist, htj]
  have e3 : pat.take (pat.length - j) = pat.drop j := e2.trans e1.symm
  have hj3 : pat.length - (pat.length - j) = j := by omega
  exact hb (pat.length - j) (by omega) (by omega) (by rw [hj3]; exact e3)

theorem countOverlap_drop (pat : List Char) :
    ∀ (m : Nat) (hay : List Char),
      (∀ j, j < m → matchAt pat (hay.drop j) = false) →
      countOverlap pat hay = countOverlap pat (hay.drop m) := by
  intro m
  induction m with
  | zero => intro hay _; rfl
  | succ k ih =>
      intro hay h
      cases hay with
      | nil => rfl
      | cons c t =>
          have h0 : matchAt pat (c :: t) = false := h 0 (by omega)
          simp only [countOverlap, h0, Bool.false_eq_true, if_false,
            Nat.zero_add]
          rw [ih t (fun j hj => by
            have h2 := h (j + 1) (by omega)
            simpa using h2)]
          rfl

theorem countOverlap_head (pat : List Char) (hb : Borderless pat)
    (hp : pat ≠ []) (hay : List Char) (h0 : matchAt pat hay = true) :
    countOverlap pat hay = 1 + countOverlap pat (hay.drop pat.length) := by
  have hpos : 0 < pat.length := List.length_pos.mpr hp
  cases hay with
  | nil =>
      rw [matchAt_nil hp] at h0
      exact absurd h0 (by simp)
  | cons c t =>
      simp only [countOverlap, h0, if_true]
      have hshift : ∀ j, j < pat.length - 1 → matchAt pat (t.drop j) = false := by
        intro j hj
        have hjlt : j + 1 < pat.length := by omega
        have h2 := no_overlap pat hb hp (c :: t) h0 (j + 1) (Nat.succ_pos j) hjlt
        simpa using h2
      rw [countOverlap_drop pat (pat.length - 1) t hshift]
      congr 1
      cases hL : pat.length with
      | zero => omega
      | succ n => simp

/-- For a border-free nonempty pattern, Python's non-overlapping
`str.count` and the overlap-inclusive position count agree on every text. -/
theorem pyCount_eq_countOverlap (pat : List Char) (hb : Borderless pat)
    (hp : pat ≠ []) : ∀ (n : Nat) (hay : List Char), hay.length ≤ n →
      pyCount pat hay = countOverlap pat hay := by
  intro n
  induction n with
  | zero =>
      intro hay hlen
      have hnil : hay = [] := List.length_eq_zero.mp (by omega)
      subst hnil
      rw [pyCount_eq pat [] hp, if_neg (by rw [matchAt_nil hp]; simp)]
      simp [countOverlap, matchAt_nil hp]
  | succ k ih =>
      intro hay hlen
      rw [pyCount_eq pat hay hp]
      by_cases hm : matchAt pat hay = true
      · rw [if_pos hm]
        have hlen2 := matchAt_length_le hm
        have hpos : 0 < pat.length := List.length_pos.mpr hp
        rw [ih (hay.drop pat.length) (by rw [List.length_drop]; omega)]
        exact (countOverlap_head pat hb hp hay hm).symm
      · rw [if_neg hm]
        cases hay with
        | nil => simp [countOverlap, matchAt_nil hp]
        | cons c t =>
            simp only [countOverlap, hm, Bool.false_eq_true, if_false,
              Nat.zero_add]
            exact ih t (by simp at hlen; omega)

theorem sum_map_double {α : Type} (l : List α) (f : α → Nat) :
    (l.map (fun x => f x * 2)).sum = 2 * (l.map f).sum := by
  induction l with
  | nil => rfl
  | cons q t ih =>
      simp only [List.map_cons, List.sum_cons, ih]
      omega

theorem scoreOf_eq_specScore (text : String) (kws phrs : List String)
    (hk : ∀ w ∈ kws, borderlessB (pyLower w).toList = true ∧
      (pyLower w).toList ≠ [])
    (hph : ∀ w ∈ phrs, borderlessB (pyLower w).toList = true ∧
      (pyLower w).toList ≠ []) :
    scoreOf text kws phrs = specScore text kws phrs := by
  rw [scoreOf, specScore]
  congr 1
  · apply congrArg
    apply List.map_congr_left
    intro w hw
    rw [Nat.mul_one, pyCountStr]
    exact pyCount_eq_countOverlap (pyLower w).toList
      (borderless_of_borderlessB _ (hk w hw).1) (hk w hw).2
      (pyLower text).toList.length _ (le_refl _)
  · have h1 : phrs.map (fun p => pyCountStr (pyLower text) (pyLower p) * 2) =
        phrs.map (fun p =>
          countOverlap (pyLower p).toList (pyLower text).toList * 2) := by
      apply List.map_congr_left
      intro w hw
      rw [pyCountStr]
      rw [pyCount_eq_countOverlap (pyLower w).toList
        (borderless_of_borderlessB _ (hph w hw).1) (hph w hw).2
        (pyLower text).toList.length _ (le_refl _)]
    rw [h1]
    exact sum_map_double phrs _

theorem max4_pos (a b c d : Nat) (h : 0 < a ∨ 0 < b ∨ 0 < c ∨ 0 < d) :
    0 < Nat.max (Nat.max (Nat.max (Nat.max 0 a) b) c) d := by
  have h1 : a ≤ Nat.max 0 a := Nat.le_max_right 0 a
  have h2 : Nat.max 0 a ≤ Nat.max (Nat.max 0 a) b := Nat.le_max_left _ b
  have h2b : b ≤ Nat.max (Nat.max 0 a) b := Nat.le_max_right _ b
  have h3 : Nat.max (Nat.max 0 a) b ≤ Nat.max (Nat.max (Nat.max 0 a) b) c :=
    Nat.le_max_left _ c
  have h3c : c ≤ Nat.max (Nat.max (Nat.max 0 a) b) c := Nat.le_max_right _ c
  have h4 : Nat.max (Nat.max (Nat.max 0 a) b) c ≤
      Nat.max (Nat.max (Nat.max (Nat.max 0 a) b) c) d := Nat.le_max_left _ d
  have h4d : d ≤ Nat.max (Nat.max (Nat.max (Nat.max 0 a) b) c) d :=
    Nat.le_max_right _ d
  omega

/-- Behavior of `classify_document` once the four raw scores are known. -/
theorem classify_concrete (text : String) (a b c d : Nat)
    (hsl : scoresList text =
      [("press_release", a), ("quarterly_report", b),
       ("annual_report", c), ("investor_deck", d)]) :
    (b < a → c < a → d < a → classify_document text = "press_release") ∧
    (a < b → c < b → d < b → classify_document text = "quarterly_report") ∧
    (a < c → b < c → d < c → classify_document text = "annual_report") ∧
    (a < d → b < d → c < d → classify_document text = "investor_deck") ∧
    (a = 0 → b = 0 → c = 0 → d = 0 → classify_document text = "other") ∧
    classify_document text ∈
      ["press_release", "quarterly_report", "annual_report", "investor_deck",
       "other"] := by
  have hmax : maxScore text = Nat.max (Nat.max (Nat.max (Nat.max 0 a) b) c) d := by
    rw [maxScore, hsl]
    rfl
  have hfa : firstArgmax (scoresList text) =
      (List.foldl (fun best y => if y.2 > best.2 then y else best)
        ("press_release", a)
        [("quarterly_report", b), ("annual_report", c), ("investor_deck", d)]).1 := by
    rw [hsl]
    rfl
  refine ⟨?_, ?_, ?_, ?_, ?_, ?_⟩
  · intro h1 h2 h3
    have hp0 : maxScore text > 0 := by
      rw [hmax]
      exact max4_pos a b c d (Or.inl (by omega))
    rw [classify_document, if_pos hp0, hfa]
    simp only [List.foldl_cons, List.foldl_nil]
    split_ifs <;> first | rfl | (exfalso; simp_all <;> omega)
  · intro h1 h2 h3
    have hp0 : maxScore text > 0 := by
      rw [hmax]
      exact max4_pos a b c d (Or.inr (Or.inl (by omega)))
    rw [classify_document, if_pos hp0, hfa]
    simp only [List.foldl_cons, List.foldl_nil]
    split_ifs <;> first | rfl | (exfalso; simp_all <;> omega)
  · intro h1 h2 h3
    have hp0 : maxScore text > 0 := by
      rw [hmax]
      exact max4_pos a b c d (Or.inr (Or.inr (Or.inl (by omega))))
    rw [classify_document, if_pos hp0, hfa]
    simp only [List.foldl_cons, List.foldl_nil]
    split_ifs <;> first | rfl | (exfalso; simp_all <;> omega)
  · intro h1 h2 h3
    have hp0 : maxScore text > 0 := by
      rw [hmax]
      exact max4_pos a b c d (Or.inr (Or.inr (Or.inr (by omega))))
    rw [classify_document, if_pos hp0, hfa]
    simp only [List.foldl_cons, List.foldl_nil]
    split_ifs <;> first | rfl | (exfalso; simp_all <;> omega)
  · intro h1 h2 h3 h4
    subst h1
    subst h2
    subst h3
    subst h4
    rw [classify_document, if_neg (by rw [hmax]; decide)]
  · rw [classify_document]
    by_cases hpos : maxScore text > 0
    · rw [if_pos hpos, hfa]
      simp only [List.foldl_cons, List.foldl_nil]
      split_ifs <;> simp
    · rw [if_neg hpos]
      decide

/-- C4: every label's classifier score equals the spec's score — keyword
occurrences (counted at every position, overlapping included,
case-insensitively) times 1 plus phrase occurrences times 2; this holds
because no pattern in the table has a nonempty border, so Python's
non-overlapping `str.count` finds every occurrence.  `classify_document`
returns the label with the strictly highest score, returns `other` when all
scores are zero, always lands in the closed five-label set, and classifies
the empty text as `other`. -/
theorem C4_classification (text : String) :
    scoresList text = specScores text ∧
    (∀ lab sc, (lab, sc) ∈ specScores text →
      (∀ p ∈ specScores text, p.1 ≠ lab → p.2 < sc) →
      classify_document text = lab) ∧
    ((∀ p ∈ specScores text, p.2 = 0) → classify_document text = "other") ∧
    classify_document text ∈
      ["press_release", "quarterly_report", "annual_report", "investor_deck",
       "other"] ∧
    classify_document "" = "other" := by
  have hok : ∀ pr ∈ patterns, ∀ w ∈ pr.2.1 ++ pr.2.2,
      borderlessB (pyLower w).toList = true ∧ (pyLower w).toList ≠ [] := by
    decide
  have heq : scoresList text = specScores text := by
    rw [scoresList, specScores]
    apply List.map_congr_left
    intro pr hpr
    have h1 : ∀ w ∈ pr.2.1, borderlessB (pyLower w).toList = true ∧
        (pyLower w).toList ≠ [] :=
      fun w hw => hok pr hpr w (List.mem_append_left _ hw)
    have h2 : ∀ w ∈ pr.2.2, borderlessB (pyLower w).toList = true ∧
        (pyLower w).toList ≠ [] :=
      fun w hw => hok pr hpr w (List.mem_append_right _ hw)
    rw [scoreOf_eq_specScore text pr.2.1 pr.2.2 h1 h2]
  have hsl : scoresList text =
      [("press_release", scoreOf text (patterns.get! 0).2.1 (patterns.get! 0).2.2),
       ("quarterly_report", scoreOf text (patterns.get! 1).2.1 (patterns.get! 1).2.2),
       ("annual_report", scoreOf text (patterns.get! 2).2.1 (patterns.get! 2).2.2),
       ("investor_deck", scoreOf text (patterns.get! 3).2.1 (patterns.get! 3).2.2)] :=
    rfl
  generalize scoreOf text (patterns.get! 0).2.1 (patterns.get! 0).2.2 = a at hsl
  generalize scoreOf text (patterns.get! 1).2.1 (patterns.get! 1).2.2 = b at hsl
  generalize scoreOf text (patterns.get! 2).2.1 (patterns.get! 2).2.2 = c at hsl
  generalize scoreOf text (patterns.get! 3).2.1 (patterns.get! 3).2.2 = d at hsl
  have hspec : specScores text =
      [("press_release", a), ("quarterly_report", b),
       ("annual_report", c), ("investor_deck", d)] := heq.symm.trans hsl
  have key := classify_concrete text a b c d hsl
  have hempty : classify_document "" = "other" := by
    have h0 : scoresList "" =
        [("press_release", 0), ("quarterly_report", 0),
         ("annual_report", 0), ("investor_deck", 0)] := by decide
    exact (classify_concrete "" 0 0 0 0 h0).2.2.2.2.1 rfl rfl rfl rfl
  refine ⟨heq, ?_, ?_, key.2.2.2.2.2, hempty⟩
  · intro lab sc hm hlt
    rw [hspec] at hm hlt
    simp only [List.mem_cons, List.not_mem_nil, or_false, Prod.mk.injEq] at hm
    rcases hm with ⟨rfl, rfl⟩ | ⟨rfl, rfl⟩ | ⟨rfl, rfl⟩ | ⟨rfl, rfl⟩
    · exact key.1 (hlt ("quarterly_report", b) (by simp) (by simp))
        (hlt ("annual_report", c) (by simp) (by simp))
        (hlt ("investor_deck", d) (by simp) (by simp))
    · exact key.2.1 (hlt ("press_release", a) (by simp) (by simp))
        (hlt ("annual_report", c) (by simp) (by simp))
        (hlt ("investor_deck", d) (by simp) (by simp))
    · exact key.2.2.1 (hlt ("press_release", a) (by simp) (by simp))
        (hlt ("quarterly_report", b) (by simp) (by simp))
        (hlt ("investor_deck", d) (by simp) (by simp))
    · exact key.2.2.2.1 (hlt ("press_release", a) (by simp) (by simp))
        (hlt ("quarterly_report", b) (by simp) (by simp))
        (hlt ("annual_report", c) (by simp) (by simp))
  · intro hz
    rw [hspec] at hz
    exact key.2.2.2.2.1 (hz ("press_release", a) (by simp))
      (hz ("quarterly_report", b) (by simp))
      (hz ("annual_report", c) (by simp))
      (hz ("investor_deck", d) (by simp))

/-- Concrete run of the C1 theorem: a parsed object carrying only an
out-of-schema field cleans to a record of exactly the schema shape, with the
empty-string default in `deal_summary.deal_name`. -/
theorem C1_witness :
    ∃ r, validate_and_clean (mnaSchema "2025-06-01T12:00:00")
        (JVal.obj [("junk", JVal.str "x")]) = .ok r ∧
      recShape r = schemaShapeC ∧
      recLookup r "deal_summary" "deal_name" = some (JVal.str "") := by
  obtain ⟨r, h1, h2, -, h4, h5, -⟩ :=
    C1_clean_shape_and_defaults "2025-06-01T12:00:00" [("junk", JVal.str "x")]
  refine ⟨r, h1, h2, ?_⟩
  rw [h4 "deal_summary" "deal_name" (by decide) rfl]
  exact h5 "deal_summary" "deal_name" (by decide) (by decide)

/-- Concrete run of the C2 theorem: a completion-call error surfaces as the
default record with `metadata.extraction_error` set, and a response the
parser rejects yields a record with no extraction error. -/
theorem C2_witness :
    process_document (mnaSchema "T0") (.error "boom") "2025-06-01T12:00:00"
        ⟨2025, 6, 1, 12, 0, 0⟩ =
      (errorRecord (mnaSchema "T0") "boom", errorRecord (mnaSchema "T0") "boom") ∧
    recLookup (errorRecord (mnaSchema "T0") "boom") "metadata"
        "extraction_error" = some (JVal.str "boom") ∧
    recLookup (process_document (mnaSchema "T0") (.ok none)
        "2025-06-01T12:00:00" ⟨2025, 6, 1, 12, 0, 0⟩).1 "metadata"
        "extraction_error" = none := by
  obtain ⟨h1, -, h3⟩ :=
    C2_failure_semantics "T0" "2025-06-01T12:00:00" ⟨2025, 6, 1, 12, 0, 0⟩
  obtain ⟨ha, hb, -⟩ := h1 "boom"
  exact ⟨ha, hb, (h3 _ rfl).1⟩

/-- Concrete run of the C4 theorem: the classifier's result is in the closed
five-label set, and the empty text classifies as `other`. -/
theorem C4_witness :
    classify_document "merger" ∈
      ["press_release", "quarterly_report", "annual_report", "investor_deck",
       "other"] ∧
    classify_document "" = "other" :=
  ⟨(C4_classification "merger").2.2.2.1, (C4_classification "merger").2.2.2.2⟩

/-- Concrete run of the C5 theorem: on a text with positive total raw score
the four confidence percentages sum to exactly 100. -/
theorem C5_witness :
    ((get_classification_confidence "q1").map Prod.snd).sum = 100 := by
  have h : 0 < totalRaw "q1" := by decide
  exact ((C5_confidence_normalization "q1").1 h).2

/-- Concrete run of the C6 theorem: a supplied string field comes out of the
merge exactly whitespace-trimmed, and merging the empty object through the
whole clean is the identity on the schema instance. -/
theorem C6_witness :
    recLookup (mergeRec (mnaSchema "T0")
        [("deal_summary", JVal.obj [("deal_name", JVal.str "  Foo ")])])
        "deal_summary" "deal_name" = some (JVal.str (cleanStr "  Foo ")) ∧
    validate_and_clean (mnaSchema "T0") (JVal.obj []) = .ok (mnaSchema "T0") := by
  obtain ⟨h1, -, h3⟩ := C6_merge_round_trip "T0"
    [("deal_summary", JVal.obj [("deal_name", JVal.str "  Foo ")])]
  exact ⟨h1 "deal_summary" "deal_name" (by decide) "  Foo " rfl, h3⟩

/-- Concrete run of the C7 theorem: `"$1,234.56M"` in `financials.revenue`
cleans to `"1234.56"`. -/
theorem C7_witness :
    ∃ r, validate_and_clean (mnaSchema "T0")
        (JVal.obj [("financials", JVal.obj [("revenue", JVal.str "$1,234.56M")])]) =
          .ok r ∧
      recLookup r "financials" "revenue" = some (JVal.str "1234.56") :=
  (C7_monetary_cleaning "T0" []).2

/-- Concrete run of the C8 theorem: target `"Acme Power Co."` with
announcement date `"2024-03-15"` gives `DEAL_AcmePowerC_20240315`, and the
timestamp fallback matches the `DEAL_\d{8}_\d{6}` pattern. -/
theorem C8_witness :
    generate_deal_id
        [("deal_summary",
          [("target_company", JVal.str "Acme Power Co."),
           ("announcement_date", JVal.str "2024-03-15")])]
        ⟨2025, 6, 1, 12, 0, 0⟩ = "DEAL_AcmePowerC_20240315" ∧
    isTimestampDealId (fallbackDealId ⟨2025, 6, 1, 12, 0, 0⟩) = true := by
  obtain ⟨-, h2, -, -, h5⟩ := C8_deal_id [] ⟨2025, 6, 1, 12, 0, 0⟩
  exact ⟨h2, h5⟩

/-- Concrete run of the C10 theorem: a parsed `deal_summary.deal_name : null`
passes through the clean unchanged into a field whose schema default is a
string. -/
theorem C10_witness :
    ∃ r, validate_and_clean (mnaSchema "T0")
        (JVal.obj [("deal_summary", JVal.obj [("deal_name", JVal.null)])]) =
          .ok r ∧
      recLookup r "deal_summary" "deal_name" = some JVal.null ∧
      recLookup (mnaSchema "T0") "deal_summary" "deal_name" =
        some (JVal.str "") :=
  (C10_nonstring_passthrough "T0" []).2

end MNA